import Mathlib

/-!
Verification of the OSMAGIC Task Manager data pipeline (src/app.js).

This file gives a shallow embedding, in Lean 4, of the pipeline functions of
`app.js`: sequence aggregation (`processGeoJSON` / `processGeoJSONAsync`),
statistics (`calculateStats`), CSV parsing (`parseCSVSync` / `parseCSVAsync` /
`parseCSVLine`), the sequence-id comparator, OSM-XML generation
(`generateJOSM` / `extractCoordinates`) and Douglas-Peucker simplification
(`douglasPeucker`), and proves properties of these definitions.

Modelling conventions:
* JavaScript numbers are modelled as rationals (`ℚ`); strings as `String`.
* A JS object used as a string-keyed record is modelled as an insertion-ordered
  association list `List (String × String)`; `Map` likewise as an
  insertion-ordered association list (JS `Map` iterates in insertion order).
* JS truthiness on (string-valued) properties: only `""` is falsy.
* Host builtins that the pipeline calls but does not define are parameters of
  the embedding: `JSON.parse`/`JSON.stringify` blocks, `localeCompare`,
  `Math.random` (an oracle indexed by feature position) and the current date.
-/

deriving instance DecidableEq for Except

/-- JS truthiness of a string value: only the empty string is falsy. -/
def truthy (s : String) : Bool := !(s == "")

/-- Drops whitespace characters from both ends of a character list. -/
def trimChars (cs : List Char) : List Char :=
  ((cs.dropWhile Char.isWhitespace).reverse.dropWhile Char.isWhitespace).reverse

/-- Models JS `String.prototype.trim()` (whitespace stripped at both ends). -/
def jsTrim (s : String) : String := ⟨trimChars s.data⟩

/-- Models JS `String.prototype.toLowerCase()` for the ASCII range. -/
def jsToLower (s : String) : String := ⟨s.data.map Char.toLower⟩

/-- Splits a character list at newline characters (JS `split('\n')`). -/
def splitChars (cs : List Char) : List (List Char) :=
  match cs with
  | [] => [[]]
  | c :: rest =>
      let r := splitChars rest
      if c = '\n' then [] :: r
      else
        match r with
        | [] => [[c]]
        | h :: t => (c :: h) :: t

/-- Models JS `text.split('\n')`. -/
def splitNl (s : String) : List String := (splitChars s.data).map String.mk

/-- Sets `m[k] = v` on an insertion-ordered association list: an existing key is
updated in place, a new key is appended (JS object / Map assignment order). -/
def setAssoc (m : List (String × String)) (k v : String) : List (String × String) :=
  if (m.lookup k).isSome then
    m.map (fun p => if p.1 == k then (p.1, v) else p)
  else m ++ [(k, v)]

/-- Tests whether `pat` matches `hay` starting at its head. -/
def matchesAt : List Char → List Char → Bool
  | [], _ => true
  | _ :: _, [] => false
  | a :: as, b :: bs => a == b && matchesAt as bs

/-- Tests whether `p` occurs as a contiguous run anywhere in the second list. -/
def subOccurs (p : List Char) : List Char → Bool
  | [] => matchesAt p []
  | c :: cs => matchesAt p (c :: cs) || subOccurs p cs

/-- Models JS `hay.includes(pat)` (substring containment). -/
def strContains (hay pat : String) : Bool := subOccurs pat.toList hay.toList

/-- Numeric value of a list of decimal digit characters. -/
def decDigitsVal (cs : List Char) : Nat :=
  cs.foldl (fun a c => a * 10 + (c.toNat - 48)) 0

/-- Numeric value of one hexadecimal digit character. -/
def hexDigitVal (c : Char) : Nat :=
  if c.isDigit then c.toNat - 48
  else if 'a' ≤ c ∧ c ≤ 'f' then c.toNat - 87
  else c.toNat - 55

/-- Tests for a hexadecimal digit character. -/
def isHexDigit (c : Char) : Bool :=
  c.isDigit || ('a' ≤ c && c ≤ 'f') || ('A' ≤ c && c ≤ 'F')

/-- Numeric value of a list of hexadecimal digit characters. -/
def hexDigitsVal (cs : List Char) : Nat :=
  cs.foldl (fun a c => a * 16 + hexDigitVal c) 0

/-- Models JS `parseInt(s)` (radix unspecified): skip leading whitespace, an
optional sign, an optional `0x`/`0X` hexadecimal marker, then the longest run
of digits; `none` models `NaN` (no digits found). -/
def jsParseInt (s : String) : Option Int :=
  let cs := s.toList.dropWhile (fun c => c.isWhitespace)
  let signed : Int × List Char :=
    match cs with
    | '-' :: rest => (-1, rest)
    | '+' :: rest => (1, rest)
    | _ => (1, cs)
  match signed.2 with
  | '0' :: 'x' :: rest =>
      let ds := rest.takeWhile isHexDigit
      if ds.isEmpty then none else some (signed.1 * (hexDigitsVal ds : Int))
  | '0' :: 'X' :: rest =>
      let ds := rest.takeWhile isHexDigit
      if ds.isEmpty then none else some (signed.1 * (hexDigitsVal ds : Int))
  | rest =>
      let ds := rest.takeWhile Char.isDigit
      if ds.isEmpty then none else some (signed.1 * (decDigitsVal ds : Int))

/-- Models JS `parseFloat(s)` restricted to plain decimal notation: skip leading
whitespace, an optional sign, then digits with an optional fractional part;
trailing characters are ignored as in JS. `none` models `NaN`. Scientific
notation is not needed by any input considered here. -/
def parseFloatQ (s : String) : Option ℚ :=
  let cs := s.toList.dropWhile (fun c => c.isWhitespace)
  let signed : ℚ × List Char :=
    match cs with
    | '-' :: rest => (-1, rest)
    | '+' :: rest => (1, rest)
    | _ => (1, cs)
  let intPart := signed.2.takeWhile Char.isDigit
  let rest := signed.2.dropWhile Char.isDigit
  let fracPart : List Char :=
    match rest with
    | '.' :: tl => tl.takeWhile Char.isDigit
    | _ => []
  if intPart.isEmpty ∧ fracPart.isEmpty then none
  else
    some (signed.1 * ((decDigitsVal intPart : ℚ) +
      (decDigitsVal fracPart : ℚ) / ((10 : ℚ) ^ fracPart.length)))

/-! ## Canonical feature model (GeoJSON-shaped, as consumed by app.js) -/

/-- GeoJSON geometry as used by the pipeline; coordinates are `(lon, lat)`
pairs in that order, matching the storage order of the source. -/
inductive Geometry where
  | point (c : ℚ × ℚ)
  | lineString (cs : List (ℚ × ℚ))
  | polygon (rings : List (List (ℚ × ℚ)))
  | multiLineString (lines : List (List (ℚ × ℚ)))
  | multiPolygon (polys : List (List (List (ℚ × ℚ))))
  deriving DecidableEq, Repr

/-- A canonical feature: an optional geometry plus a string-valued property
record (the spec data model fixes properties to be string-valued). -/
structure Feature where
  geometry : Option Geometry
  properties : List (String × String)
  deriving DecidableEq, Repr

instance : Inhabited Feature := ⟨⟨none, []⟩⟩

/-- Statistics record returned by `calculateStats` (src/app.js 345-376). -/
structure Stats where
  features : Nat
  nodes : Nat
  ways : Nat
  deriving DecidableEq, Repr

/-- One iteration of the `forEach` loop of `calculateStats` (src/app.js
349-369), updating the `(nodes, ways)` accumulators. For `LineString` /
`MultiLineString` the source tests `Array.isArray(coordinates[0])` and adds
`coordinates.length` when it is an array, else `1`; for `Polygon` /
`MultiPolygon` it adds `coordinates[0].length` when `coordinates[0]` exists. -/
def statsStep (acc : Nat × Nat) (f : Feature) : Nat × Nat :=
  match f.geometry with
  | none => acc
  | some (.point _) => (acc.1 + 1, acc.2)
  | some (.lineString cs) =>
      (acc.1 + (if cs.isEmpty then 1 else cs.length), acc.2 + 1)
  | some (.multiLineString ls) =>
      (acc.1 + (if ls.isEmpty then 1 else ls.length), acc.2 + 1)
  | some (.polygon rings) =>
      (acc.1 + (match rings.head? with | some r => r.length | none => 0), acc.2 + 1)
  | some (.multiPolygon polys) =>
      (acc.1 + (match polys.head? with | some p => p.length | none => 0), acc.2 + 1)

/-- Embedding of `calculateStats` (src/app.js 345-376). -/
def calculateStats (features : List Feature) : Stats :=
  let nw := features.foldl statsStep (0, 0)
  { features := features.length, nodes := nw.1, ways := nw.2 }

/-! ## Sequence aggregation (processGeoJSON / processGeoJSONAsync) -/

/-- Models one step of the JS truthy-fallback chain `props?.k || alt`:
the property value is taken when present and truthy, else `alt`. -/
def propOr (props : List (String × String)) (k : String) (alt : String) : String :=
  let v := (props.lookup k).getD ""
  if truthy v then v else alt

/-- Embedding of the sequence-key derivation (src/app.js 174-181 and the
identical 257-264): the chain
`sequence_id || sequenceId || sequence || id || seq ||` a synthetic
`sequence_${id || random}`. `rnd` stands for the `Math.random()` suffix
generated if that call is reached. -/
def getSequenceId (rnd : String) (f : Feature) : String :=
  propOr f.properties "sequence_id"
    (propOr f.properties "sequenceId"
      (propOr f.properties "sequence"
        (propOr f.properties "id"
          (propOr f.properties "seq"
            ("sequence_" ++ propOr f.properties "id" rnd)))))

/-- A sequence as first built by the grouping pass, before statistics are
attached (the object literal at src/app.js 185-190). -/
structure PreSeq where
  id : String
  features : List Feature
  status : String
  date : String
  deriving DecidableEq, Repr

instance : Inhabited PreSeq := ⟨⟨"", [], "", ""⟩⟩

/-- A finished sequence with statistics attached (src/app.js 197-205). -/
structure Sequence where
  id : String
  features : List Feature
  status : String
  date : String
  featureCount : Nat
  nodeCount : Nat
  wayCount : Nat
  deriving DecidableEq, Repr

instance : Inhabited Sequence := ⟨⟨"", [], "", "", 0, 0, 0⟩⟩

/-- Models the `existingStatusMap` lookup (src/app.js 163-168): statuses of the
prior sequences keyed by `String(seq.id)`; `Map.set` overwrites, so the last
sequence with a given id wins. -/
def statusLookup (prior : List Sequence) (k : String) : Option String :=
  prior.reverse.findSome? (fun s => if s.id == k then some s.status else none)

/-- Appends feature `f` to the features of the map entry with key `k`,
in place (models `sequenceMap.get(sequenceId).features.push(feature)`). -/
def pushFeature (k : String) (f : Feature) :
    List (String × PreSeq) → List (String × PreSeq)
  | [] => []
  | (k₀, s) :: rest =>
      if k₀ == k then (k₀, { s with features := s.features ++ [f] }) :: rest
      else (k₀, s) :: pushFeature k f rest

/-- One iteration of the grouping loop (src/app.js 173-194, identical at
255-277): derive the key of the feature at position `ixf.1`, create the map
entry if absent (status looked up from the prior sequences, else `""`), and
push the feature onto the entry. -/
def addFeature (prior : List Sequence) (today : String) (rnd : Nat → String)
    (acc : List (String × PreSeq)) (ixf : Nat × Feature) : List (String × PreSeq) :=
  let k := getSequenceId (rnd ixf.1) ixf.2
  let acc :=
    if (acc.lookup k).isSome then acc
    else acc ++ [(k, { id := k, features := [],
                       status := (statusLookup prior k).getD "", date := today })]
  pushFeature k ixf.2 acc

/-- Attaches statistics to a grouped sequence (the `map` at src/app.js
197-205 and the identical push at 297-306). -/
def attachStats (p : PreSeq) : Sequence :=
  let st := calculateStats p.features
  { id := p.id, features := p.features, status := p.status, date := p.date,
    featureCount := st.features, nodeCount := st.nodes, wayCount := st.ways }

/-- Embedding of the sequence-id comparator (src/app.js 208-215, identical at
319-326): numeric difference when both ids `parseInt` to numbers, otherwise
`localeCompare`, which is host- and locale-defined and therefore a parameter
`loc`. -/
def seqCompare (loc : String → String → Int) (a b : Sequence) : Int :=
  match jsParseInt a.id, jsParseInt b.id with
  | some x, some y => x - y
  | _, _ => loc a.id b.id

/-- Stable insertion of `x` after every element not strictly greater
(comparator sense), used to model `Array.prototype.sort`. -/
def stableInsert (c : α → α → Int) (x : α) : List α → List α
  | [] => [x]
  | y :: ys => if c y x ≤ 0 then y :: stableInsert c x ys else x :: y :: ys

/-- Models `Array.prototype.sort(comparator)` as a stable insertion sort
(JS sort is stable per ES2019). -/
def jsSort (c : α → α → Int) (l : List α) : List α :=
  l.foldl (fun acc x => stableInsert c x acc) []

/-- Embedding of `processGeoJSON` (src/app.js 157-230) restricted to its
returned data (the new `this.sequences` value): group the features in order,
attach statistics, and sort with the id comparator. `rnd i` is the
`Math.random()` suffix that would be drawn for the feature at index `i`;
`today` is `new Date().toLocaleDateString()`. -/
def processGeoJSON (loc : String → String → Int) (rnd : Nat → String)
    (today : String) (prior : List Sequence) (features : List Feature) : List Sequence :=
  let grouped := features.enum.foldl (addFeature prior today rnd) []
  let seqs := (grouped.map Prod.snd).map attachStats
  jsSort (seqCompare loc) seqs

/-- Generic chunked loop: `chunkFold f chunk n fuel start acc` runs
`for (s = start; s < n; s += chunk) for (i = s; i < min(s+chunk, n); i++)`,
folding `f` over the visited indices `i`. `fuel` bounds the number of outer
iterations (the JS loop needs none; any `fuel ≥ n` is enough when
`chunk ≥ 1`). -/
def chunkFold (f : α → Nat → α) (chunk n : Nat) : Nat → Nat → α → α
  | 0, _, acc => acc
  | fuel + 1, start, acc =>
      if start < n then
        chunkFold f chunk n fuel (start + chunk)
          ((List.range' start (min (start + chunk) n - start)).foldl f acc)
      else acc

/-- Embedding of `processGeoJSONAsync` (src/app.js 232-343) restricted to its
returned data: identical computation, but features are grouped in chunks of
100 and statistics computed in chunks of 50, each chunk loop modelled by
`chunkFold` (the yields and progress reports do not touch the data). -/
def processGeoJSONAsync (loc : String → String → Int) (rnd : Nat → String)
    (today : String) (prior : List Sequence) (features : List Feature) : List Sequence :=
  let grouped := chunkFold
    (fun acc i => addFeature prior today rnd acc (i, features.getD i default))
    100 features.length features.length 0 []
  let seqs := grouped.map Prod.snd
  let processed := chunkFold
    (fun acc i => acc ++ [attachStats (seqs.getD i default)])
    50 seqs.length seqs.length 0 []
  jsSort (seqCompare loc) processed

/-- Helper for `updateStatus`: sets the status of the first sequence whose id
matches (JS `find` returns the first match, which is then mutated). -/
def setStatusFirst (sequenceId newStatus : String) : List Sequence → List Sequence
  | [] => []
  | s :: rest =>
      if s.id == sequenceId then { s with status := newStatus } :: rest
      else s :: setStatusFirst sequenceId newStatus rest

/-- Embedding of `updateStatus` (src/app.js 1273-1276) restricted to its
effect on the sequence list. -/
def updateStatus (seqs : List Sequence) (sequenceId newStatus : String) : List Sequence :=
  setStatusFirst sequenceId newStatus seqs

/-! ## CSV parsing (parseCSVSync / parseCSVAsync / parseCSVLine) -/

/-- State of the character loop of `parseCSVLine` (src/app.js 833-854). -/
structure CsvLineState where
  result : List String
  current : String
  inQuotes : Bool
  deriving DecidableEq, Repr

/-- One character step of `parseCSVLine`: a double quote toggles the in-quotes
flag, an unquoted comma pushes the trimmed field, anything else accumulates. -/
def csvLineStep (st : CsvLineState) (c : Char) : CsvLineState :=
  if c == '"' then { st with inQuotes := ! st.inQuotes }
  else if c == ',' && ! st.inQuotes then
    { result := st.result ++ [jsTrim st.current], current := "", inQuotes := st.inQuotes }
  else { st with current := st.current.push c }

/-- Embedding of `parseCSVLine` (src/app.js 833-854). -/
def parseCSVLine (line : String) : List String :=
  let st := line.toList.foldl csvLineStep ⟨[], "", false⟩
  st.result ++ [jsTrim st.current]

/-- Column indices located by the header scan (src/app.js 507-531); `none`
models the `-1` sentinel. -/
structure CsvCols where
  latLongArrayIndex : Option Nat
  latIndex : Option Nat
  lonIndex : Option Nat
  sequenceIdIndex : Option Nat
  deriving DecidableEq, Repr

/-- Column-name lists of the header scan (src/app.js 512-515). -/
def latLongArrayNames : List String :=
  ["lat_long_array", "latlongarray", "coordinates", "coords", "points"]

/-- Latitude column-name fragments (src/app.js 513). -/
def latNames : List String := ["lat", "latitude", "y", "ycoord"]

/-- Longitude column-name fragments (src/app.js 514). -/
def lonNames : List String := ["lon", "lng", "longitude", "long", "x", "xcoord"]

/-- Sequence-id column names (src/app.js 515). -/
def seqIdNames : List String :=
  ["offroad_sequence_id", "sequence_id", "sequenceid", "sequence", "seq", "id"]

/-- One iteration of the header scan `forEach` (src/app.js 517-531): each role
keeps the first matching column; the array column and the sequence-id column
match exactly, the lat/lon columns by substring. -/
def scanCol (acc : CsvCols) (ic : Nat × String) : CsvCols :=
  let colLower := jsTrim (jsToLower ic.2)
  let acc :=
    if acc.latLongArrayIndex.isNone && latLongArrayNames.any (fun n => colLower == n)
    then { acc with latLongArrayIndex := some ic.1 } else acc
  let acc :=
    if acc.latIndex.isNone && latNames.any (fun n => strContains colLower n)
    then { acc with latIndex := some ic.1 } else acc
  let acc :=
    if acc.lonIndex.isNone && lonNames.any (fun n => strContains colLower n)
    then { acc with lonIndex := some ic.1 } else acc
  if acc.sequenceIdIndex.isNone && seqIdNames.any (fun n => colLower == n)
  then { acc with sequenceIdIndex := some ic.1 } else acc

/-- The full header scan over the enumerated header row. -/
def findCols (header : List String) : CsvCols :=
  header.enum.foldl scanCol ⟨none, none, none, none⟩

/-- Host-builtin JSON blocks of the CSV parser, abstracted as parameters (they
are textually identical in the sync and async variants):
`mergeJson existing cell` models the try block at src/app.js 587-596 = 756-765
(`JSON.parse` both sides, union via `Set`, `JSON.stringify` back), returning
`none` when the merge is skipped; `parseCoordArray cell` models the try block
at src/app.js 604-618 = 772-786 (`JSON.parse` of a `[lat, lon]` pair array,
mapped and filtered to `(lon, lat)` pairs), returning `[]` when parsing
fails. -/
structure CsvParams where
  mergeJson : Option String → String → Option String
  parseCoordArray : String → List (ℚ × ℚ)

/-- The per-sequence accumulator of the CSV parser (src/app.js 563-569). -/
structure CsvSeq where
  id : String
  coordinates : List (ℚ × ℚ)
  properties : List (String × String)
  rowCount : Nat
  deriving DecidableEq, Repr

/-- Applies `g` to the map entry with key `k`, in place (models mutation of the
object held by `sequenceMap.get(sequenceId)`). -/
def updateEntry (k : String) (g : CsvSeq → CsvSeq) :
    List (String × CsvSeq) → List (String × CsvSeq)
  | [] => []
  | (k₀, s) :: rest =>
      if k₀ == k then (k₀, g s) :: rest
      else (k₀, s) :: updateEntry k g rest

/-- Cell access `row[idx]`; a missing cell is `""` (like `undefined`, it is
falsy and `parseFloat` of it is `NaN`, which is all the parser observes). -/
def rowGet (row : List String) (i : Nat) : String := row.getD i ""

/-- Property seeding and merging for one row (src/app.js 575-600 = 744-768):
the first row of a sequence seeds all truthy cells keyed by the trimmed column
name; later rows only merge the `bookingcodes` / `wheels` array columns via
the JSON block, keeping the existing value when that block fails. -/
def csvMergeProps (P : CsvParams) (header row : List String) (sq : CsvSeq) : CsvSeq :=
  if sq.rowCount = 1 then
    { sq with properties := header.enum.foldl (fun ps p =>
        if truthy (jsTrim (rowGet row p.1))
        then setAssoc ps (jsTrim p.2) (jsTrim (rowGet row p.1)) else ps) sq.properties }
  else
    { sq with properties := header.enum.foldl (fun ps p =>
        let colLower := jsTrim (jsToLower p.2)
        if truthy (jsTrim (rowGet row p.1)) then
          if colLower == "bookingcodes" || colLower == "wheels" then
            match P.mergeJson (ps.lookup p.2) (jsTrim (rowGet row p.1)) with
            | some merged => setAssoc ps p.2 merged
            | none => ps
          else ps
        else ps) sq.properties }

/-- Coordinate extraction for one row (src/app.js 602-629 = 771-797): the
array column when present and truthy, else the separate lat/lon columns,
swapped into `(lon, lat)` order; non-numeric cells contribute nothing. -/
def csvRowCoords (P : CsvParams) (cols : CsvCols) (row : List String) : List (ℚ × ℚ) :=
  let latLonPath : List (ℚ × ℚ) :=
    match cols.latIndex, cols.lonIndex with
    | some li, some oi =>
        match parseFloatQ (rowGet row li), parseFloatQ (rowGet row oi) with
        | some la, some lo => [(lo, la)]
        | _, _ => []
    | _, _ => []
  match cols.latLongArrayIndex with
  | some ai =>
      if truthy (rowGet row ai) then P.parseCoordArray (jsTrim (rowGet row ai))
      else latLonPath
  | none => latLonPath

/-- Full processing of the data row at line index `i` (the loop body at
src/app.js 546-630, textually identical to 717-798): parse the line, derive
the sequence key (sequence-id column, else `group` column, else
`csv_sequence_<i>`), create the map entry if absent, bump `rowCount`, merge
properties, and append the row's coordinates. -/
def csvRowStep (P : CsvParams) (header : List String) (cols : CsvCols)
    (lines : List String) (acc : List (String × CsvSeq)) (i : Nat) :
    List (String × CsvSeq) :=
  let row := parseCSVLine (lines.getD i "")
  if row.length = 0 then acc
  else
    let fallback : String :=
      match header.findIdx? (fun col => jsTrim (jsToLower col) == "group") with
      | some gi =>
          if truthy (jsTrim (rowGet row gi)) then jsTrim (rowGet row gi)
          else "csv_sequence_" ++ toString i
      | none => "csv_sequence_" ++ toString i
    let sequenceId :=
      match cols.sequenceIdIndex with
      | some si =>
          if truthy (jsTrim (rowGet row si)) then jsTrim (rowGet row si) else fallback
      | none => fallback
    let acc :=
      if (acc.lookup sequenceId).isSome then acc
      else acc ++ [(sequenceId, ⟨sequenceId, [], [], 0⟩)]
    updateEntry sequenceId (fun sq =>
      let sq := { sq with rowCount := sq.rowCount + 1 }
      let sq := csvMergeProps P header row sq
      let rowCoordinates := csvRowCoords P cols row
      if rowCoordinates.isEmpty then sq
      else { sq with coordinates := sq.coordinates ++ rowCoordinates }) acc

/-- Conversion of the grouped rows to features (src/app.js 642-668 = 800-825):
groups without coordinates are dropped, `sequence_id` is stamped into the
properties, one coordinate gives a `Point`, several give a `LineString`. -/
def csvFinalize (groups : List (String × CsvSeq)) : List Feature :=
  groups.foldl (fun fs p =>
    let sq := p.2
    if sq.coordinates.isEmpty then fs
    else
      let props := setAssoc sq.properties "sequence_id" sq.id
      if sq.coordinates.length = 1 then
        fs ++ [⟨some (.point (sq.coordinates.headD (0, 0))), props⟩]
      else
        fs ++ [⟨some (.lineString sq.coordinates), props⟩]) []

/-- Splits the CSV text into nonblank lines (src/app.js 498 = 678). -/
def csvLines (csvText : String) : List String :=
  (splitNl csvText).filter (fun l => truthy (jsTrim l))

/-- Error message for a too-short file (src/app.js 500 = 680). -/
def csvTooShortMsg : String :=
  "CSV file must have at least a header row and one data row"

/-- Error message for missing coordinate columns (src/app.js 535 = 712). -/
def csvNoColsMsg : String :=
  "CSV must contain either:\n1. A lat_long_array column with coordinate arrays, OR\n2. Separate latitude and longitude columns"

/-- Embedding of `parseCSVSync` (src/app.js 676-831): header scan, one pass
over the data rows in order, then finalization. Thrown errors are modelled by
`Except.error`. -/
def parseCSVSync (P : CsvParams) (csvText : String) : Except String (List Feature) :=
  let lines := csvLines csvText
  if lines.length < 2 then .error csvTooShortMsg
  else
    let header := parseCSVLine (lines.getD 0 "")
    let cols := findCols header
    if cols.latLongArrayIndex.isNone && (cols.latIndex.isNone || cols.lonIndex.isNone)
    then .error csvNoColsMsg
    else
      let groups := (List.range' 1 (lines.length - 1)).foldl
        (csvRowStep P header cols lines) []
      .ok (csvFinalize groups)

/-- Embedding of `parseCSVAsync` (src/app.js 496-674): identical to
`parseCSVSync` except that the data rows are visited by the chunked loop
(chunk size 50, src/app.js 543-544); the progress reports and yields between
chunks do not touch the parsing state. -/
def parseCSVAsync (P : CsvParams) (csvText : String) : Except String (List Feature) :=
  let lines := csvLines csvText
  if lines.length < 2 then .error csvTooShortMsg
  else
    let header := parseCSVLine (lines.getD 0 "")
    let cols := findCols header
    if cols.latLongArrayIndex.isNone && (cols.latIndex.isNone || cols.lonIndex.isNone)
    then .error csvNoColsMsg
    else
      let groups := chunkFold (csvRowStep P header cols lines)
        50 lines.length lines.length 1 []
      .ok (csvFinalize groups)

/-! ## OSM-XML export (generateJOSM / extractCoordinates / escapeXml) -/

/-- Embedding of `extractCoordinates` (src/app.js 1523-1547): the flattened
coordinate list of a geometry (Point itself; LineString as-is; Polygon outer
ring; MultiLineString all member lines; MultiPolygon the first ring of every
member polygon). -/
def extractCoordinates : Geometry → List (ℚ × ℚ)
  | .point c => [c]
  | .lineString cs => cs
  | .polygon rings => match rings.head? with | some r => r | none => []
  | .multiLineString ls => ls.foldl (fun acc line => acc ++ line) []
  | .multiPolygon polys =>
      polys.foldl (fun acc poly =>
        match poly.head? with | some r => acc ++ r | none => acc) []

/-- Left-pads the decimal digits of `n` with zeros to width 7. -/
def pad7 (n : Nat) : String :=
  let s := toString n
  String.mk (List.replicate (7 - s.length) '0') ++ s

/-- Models JS `Number.prototype.toFixed(7)`: sign of the number, then the
absolute value rounded to 7 decimal places, ties rounded to the larger
candidate (ECMA-262 Number.prototype.toFixed picks the larger `n` on a
tie). -/
def toFixed7 (q : ℚ) : String :=
  let sign := if q < 0 then "-" else ""
  let n := (Int.floor (|q| * 10000000 + 1 / 2)).toNat
  sign ++ toString (n / 10000000) ++ "." ++ pad7 (n % 10000000)

/-- The node-deduplication key of a `(lon, lat)` coordinate
(src/app.js 1476): latitude and longitude formatted to 7 decimal places. -/
def coordKey (c : ℚ × ℚ) : String := toFixed7 c.2 ++ "," ++ toFixed7 c.1

/-- One OSM node of the export (src/app.js 1479-1483). -/
structure OsmNode where
  id : Int
  lat : ℚ
  lon : ℚ
  deriving DecidableEq, Repr

/-- Inserts a coordinate into the node map if its key is unseen, allocating
the next decreasing synthetic id (src/app.js 1474-1485: `nodeId--` starting
at `-1000`, so the i-th inserted node has id `-1000 - i`). -/
def insertCoord (m : List (String × OsmNode)) (c : ℚ × ℚ) : List (String × OsmNode) :=
  let key := coordKey c
  if (m.lookup key).isSome then m
  else m ++ [(key, ⟨-1000 - (m.length : Int), c.2, c.1⟩)]

/-- One iteration of the node-building pass (src/app.js 1469-1486): features
without geometry are skipped, every extracted coordinate is inserted. -/
def nodeStep (m : List (String × OsmNode)) (f : Feature) : List (String × OsmNode) :=
  match f.geometry with
  | none => m
  | some g => (extractCoordinates g).foldl insertCoord m

/-- The node table of the export: first pass over all features
(src/app.js 1469-1486), in feature order, inserting every extracted
coordinate. -/
def buildNodeMap (fs : List Feature) : List (String × OsmNode) :=
  fs.foldl nodeStep []

/-- One OSM way of the export (src/app.js 1496-1517). -/
structure OsmWay where
  id : Int
  nds : List Int
  highway : String
  deriving DecidableEq, Repr

instance : Inhabited OsmWay := ⟨⟨0, [], ""⟩⟩

instance : Inhabited OsmNode := ⟨⟨0, 0, 0⟩⟩

/-- One iteration of the way-building pass (src/app.js 1496-1517): features
with fewer than 2 extracted coordinates are skipped; otherwise a way with the
next decreasing way id is appended, whose `nd` references resolve each
coordinate through the node map (a reference is emitted only `if (node)` was
found). -/
def wayStep (nodeMap : List (String × OsmNode)) (acc : List OsmWay × Int)
    (f : Feature) : List OsmWay × Int :=
  match f.geometry with
  | none => acc
  | some g =>
      let coords := extractCoordinates g
      if coords.length < 2 then acc
      else
        let nds := coords.filterMap
          (fun c => (nodeMap.lookup (coordKey c)).map (fun n => n.id))
        let highway := propOr f.properties "highway" "unclassified"
        (acc.1 ++ [⟨acc.2, nds, highway⟩], acc.2 - 1)

/-- The way list of the export: second pass over all features
(src/app.js 1496-1517), way ids decreasing from `-1000`. -/
def buildWays (fs : List Feature) : List OsmWay :=
  (fs.foldl (wayStep (buildNodeMap fs)) ([], -1000)).1

/-- Embedding of `escapeXml` (src/app.js 1549-1556). The source chains five
global replaces whose outputs contain none of the later-replaced characters,
so the chain equals this single character map. -/
def escapeXml (text : String) : String :=
  String.join (text.toList.map (fun c =>
    if c = '&' then "&amp;"
    else if c = '<' then "&lt;"
    else if c = '>' then "&gt;"
    else if c = '"' then "&quot;"
    else if c = '\'' then "&apos;"
    else String.singleton c))

/-- Serialization of one node element (src/app.js 1489-1491). -/
def nodeXml (n : OsmNode) : String :=
  "  <node id=\"" ++ toString n.id ++ "\" lat=\"" ++ toFixed7 n.lat ++
  "\" lon=\"" ++ toFixed7 n.lon ++ "\" version=\"1\" />\n"

/-- Serialization of one way element (src/app.js 1502-1516). -/
def wayXml (w : OsmWay) : String :=
  "  <way id=\"" ++ toString w.id ++ "\" version=\"1\">\n" ++
  String.join (w.nds.map (fun r => "    <nd ref=\"" ++ toString r ++ "\" />\n")) ++
  "    <tag k=\"highway\" v=\"" ++ escapeXml w.highway ++ "\" />\n" ++
  "  </way>\n"

/-- Embedding of `generateJOSM` (src/app.js 1457-1521): prologue and comments,
all nodes in first-seen order, a blank line, then all ways. `now` stands for
`new Date().toISOString()`. -/
def generateJOSM (now : String) (s : Sequence) : String :=
  "<?xml version=\"1.0\" encoding=\"UTF-8\"?>\n" ++
  "<osm version=\"0.6\" generator=\"OSMAGIC Task Manager\">\n" ++
  "  <!-- Sequence ID: " ++ s.id ++ " -->\n" ++
  "  <!-- Features: " ++ toString s.featureCount ++ " -->\n" ++
  "  <!-- Generated: " ++ now ++ " -->\n\n" ++
  String.join ((buildNodeMap s.features).map (fun p => nodeXml p.2)) ++
  "\n" ++
  String.join ((buildWays s.features).map wayXml) ++
  "</osm>"

/-! ## Douglas-Peucker simplification (douglasPeucker) -/

/-- One iteration of the interior-maximum loop of `douglasPeucker`
(src/app.js 2145-2151): the running `(maxDistance, maxIndex)` pair is replaced
when the distance at index `i` strictly exceeds the running maximum. -/
def stepMax (f : Nat → ℚ) (acc : ℚ × Nat) (i : Nat) : ℚ × Nat :=
  if f i > acc.1 then (f i, i) else acc

/-- The interior-maximum loop of `douglasPeucker` over indices
`1 .. n - 2`, starting from `(0, 0)` (src/app.js 2140-2151). -/
def findMax (f : Nat → ℚ) (n : Nat) : ℚ × Nat :=
  (List.range' 1 (n - 2)).foldl (stepMax f) (0, 0)

/-- Fuel-indexed embedding of `douglasPeucker` (src/app.js 2136-2165),
parametric in the distance metric `d point segStart segEnd` (the source
passes `perpendicularDistance`, a host floating-point computation built from
`Math.sqrt` and the trigonometric haversine; every theorem below holds for an
arbitrary metric, hence for it). The JS recursion carries no fuel; the fuel
only bounds the recursion depth so the function is total, and with a positive
tolerance any fuel of at least `points.length` gives the fuel-free value. -/
def dpFuel (d : ℚ × ℚ → ℚ × ℚ → ℚ × ℚ → ℚ) :
    Nat → List (ℚ × ℚ) → ℚ → List (ℚ × ℚ)
  | 0, points, _ => points
  | fuel + 1, points, tolerance =>
      if points.length ≤ 2 then points
      else
        let first := points.getD 0 (0, 0)
        let last := points.getD (points.length - 1) (0, 0)
        let mx := findMax (fun i => d (points.getD i (0, 0)) first last) points.length
        if mx.1 > tolerance then
          let left := dpFuel d fuel (points.take (mx.2 + 1)) tolerance
          let right := dpFuel d fuel (points.drop mx.2) tolerance
          left.dropLast ++ right
        else [first, last]

/-- Embedding of `douglasPeucker` (src/app.js 2136-2165): the fuel-indexed
recursion run with fuel `points.length`, which suffices for every positive
tolerance. -/
def douglasPeucker (d : ℚ × ℚ → ℚ × ℚ → ℚ × ℚ → ℚ)
    (points : List (ℚ × ℚ)) (tolerance : ℚ) : List (ℚ × ℚ) :=
  dpFuel d points.length points tolerance

/-! ## Specification-side definitions

The following definitions are written from the words of the specification (or
of an amended claim), to be compared with the embedded source definitions
above. -/

/-- Node contribution of a single feature, as `calculateStats` computes it:
1 per Point; the vertex count for a nonempty LineString (1 when empty, since
the source then tests `Array.isArray(undefined)`); the number of member lines
for a nonempty MultiLineString; the first-ring vertex count for a Polygon;
the number of rings of the first member polygon for a MultiPolygon. -/
def nodeContrib (f : Feature) : Nat :=
  match f.geometry with
  | none => 0
  | some (.point _) => 1
  | some (.lineString cs) => if cs.isEmpty then 1 else cs.length
  | some (.multiLineString ls) => if ls.isEmpty then 1 else ls.length
  | some (.polygon rings) => match rings.head? with | some r => r.length | none => 0
  | some (.multiPolygon polys) => match polys.head? with | some p => p.length | none => 0

/-- Way contribution of a single feature: 1 for every Line- or Polygon-typed
geometry, 0 for Points and missing geometries. -/
def wayContrib (f : Feature) : Nat :=
  match f.geometry with
  | none => 0
  | some (.point _) => 0
  | some (.lineString _) => 1
  | some (.multiLineString _) => 1
  | some (.polygon _) => 1
  | some (.multiPolygon _) => 1

/-- One probe of a property key: its value when present and truthy. -/
def probeStep (props : List (String × String)) (k : String) : Option String :=
  match props.lookup k with
  | some v => if truthy v then some v else none
  | none => none

/-- Key probing written from the spec words as amended: the candidate
properties in priority order `sequence_id, sequenceId, sequence, id, seq`,
taking the first whose value is present and truthy (non-empty); `none` when
no candidate holds a truthy value. -/
def probeKeySpec (props : List (String × String)) : Option String :=
  ["sequence_id", "sequenceId", "sequence", "id", "seq"].findSome? (probeStep props)

/-- The sorting rule written from the spec words: when both ids parse as
integers (in the JS `parseInt` sense), compare numerically; otherwise compare
with the lexical comparator `loc`. -/
def specCompare (loc : String → String → Int) (a b : String) : Int :=
  if (jsParseInt a).isSome ∧ (jsParseInt b).isSome
  then (jsParseInt a).getD 0 - (jsParseInt b).getD 0
  else loc a b

/-- CSV parameters whose JSON blocks never fire, usable for inputs that have
no array column and no repeated `bookingcodes`/`wheels` cells. -/
def trivialCsvParams : CsvParams := ⟨fun _ _ => none, fun _ => []⟩

/-- The three-row CSV input of the specification example. -/
def csvExample : String :=
  "sequence_id,lat,lon\nA,1.0,103.0\nA,1.1,103.1\nB,1.2,103.2"

/-! ## Lemmas and theorems -/

lemma statsStep_eq (acc : Nat × Nat) (f : Feature) :
    statsStep acc f = (acc.1 + nodeContrib f, acc.2 + wayContrib f) := by
  rcases f with ⟨g, props⟩
  rcases g with _ | g
  · simp [statsStep, nodeContrib, wayContrib]
  · cases g <;> simp [statsStep, nodeContrib, wayContrib]

lemma foldl_statsStep (fs : List Feature) : ∀ a b : Nat,
    fs.foldl statsStep (a, b) =
      (a + (fs.map nodeContrib).sum, b + (fs.map wayContrib).sum) := by
  induction fs with
  | nil => simp
  | cons f fs ih =>
      intro a b
      simp only [List.foldl_cons, statsStep_eq, ih, List.map_cons, List.sum_cons]
      simp [Nat.add_assoc]

/-- Claim C3 (amended): `calculateStats` returns the feature count, the sum of
per-feature node contributions (1 per Point; vertex count for a LineString;
first-ring vertex count for a Polygon; but the number of member lines for a
MultiLineString and the number of first-polygon rings for a MultiPolygon),
and the count of Line- or Polygon-typed features; in particular one Point plus
one 4-point LineString gives featureCount 2, wayCount 1, nodeCount 5. -/
theorem calculateStats_characterization (fs : List Feature) :
    calculateStats fs =
      ⟨fs.length, (fs.map nodeContrib).sum, (fs.map wayContrib).sum⟩ ∧
    calculateStats [⟨some (.point (103, 1)), []⟩,
      ⟨some (.lineString [(0, 0), (1, 1), (2, 2), (3, 3)]), []⟩] =
      ⟨2, 5, 1⟩ := by
  refine ⟨?_, by rfl⟩
  have h := foldl_statsStep fs 0 0
  simp only [calculateStats, h]
  simp

/-- Claim C3 counterexample: for a single MultiLineString of two member lines
with 3 and 2 vertices, the claimed node count (all line vertices, 5) differs
from what the code computes, namely the number of member lines (2). -/
theorem calculateStats_multiLineString_cex :
    (calculateStats
      [⟨some (.multiLineString [[(0, 0), (1, 1), (2, 2)], [(5, 5), (6, 6)]]), []⟩]).nodes
      = 2 ∧ (2 : Nat) ≠ 5 := by
  exact ⟨rfl, by decide⟩

lemma propOr_step (props : List (String × String)) (k alt : String) :
    propOr props k alt = (probeStep props k).getD alt := by
  unfold propOr probeStep
  rcases h : props.lookup k with _ | v
  · simp [h, truthy]
  · simp only [h, Option.getD_some]
    split_ifs <;> simp [*]

lemma findSome?_getD_chain (f : String → Option String) (l : List String) (alt : String) :
    (l.findSome? f).getD alt = l.foldr (fun k acc => (f k).getD acc) alt := by
  induction l with
  | nil => rfl
  | cons k ks ih =>
      rcases h : f k with _ | v
      · simp [List.findSome?_cons, h, ih]
      · simp [List.findSome?_cons, h]

lemma getSequenceId_eq (rnd : String) (f : Feature) :
    getSequenceId rnd f =
      (probeKeySpec f.properties).getD ("sequence_" ++ propOr f.properties "id" rnd) := by
  rw [probeKeySpec, findSome?_getD_chain]
  simp only [List.foldr_cons, List.foldr_nil]
  rw [getSequenceId]
  simp only [propOr_step]

lemma probeKeySpec_none_id (props : List (String × String)) (rnd : String)
    (h : probeKeySpec props = none) : propOr props "id" rnd = rnd := by
  have hid : probeStep props "id" = none :=
    List.findSome?_eq_none_iff.mp h "id" (by simp)
  rw [propOr_step, hid, Option.getD_none]

/-- Claim C4 (amended): the sequence key is derived by probing the properties
in priority order `sequence_id, sequenceId, sequence, id, seq`, taking the
first whose value is truthy (non-empty) — a present but empty value is
skipped; only when no candidate holds a truthy value is the synthetic key
`sequence_<random>` generated (the `id-or-random` template always draws the
random suffix there, since `id` is then itself falsy). Key derivation for a
keyed feature is independent of the random oracle. -/
theorem getSequenceId_characterization (f : Feature) :
    (∀ v, probeKeySpec f.properties = some v → ∀ rnd, getSequenceId rnd f = v) ∧
    (probeKeySpec f.properties = none →
      ∀ rnd, getSequenceId rnd f = "sequence_" ++ rnd) := by
  constructor
  · intro v h rnd
    rw [getSequenceId_eq, h, Option.getD_some]
  · intro h rnd
    rw [getSequenceId_eq, h, Option.getD_none, probeKeySpec_none_id _ _ h]

/-- Claim C4 witness: a feature keyed through the third probe. -/
theorem getSequenceId_characterization_witness :
    getSequenceId "r0" ⟨none, [("sequence", "S")]⟩ = "S" :=
  (getSequenceId_characterization ⟨none, [("sequence", "S")]⟩).1 "S" (by decide) "r0"

/-- Claim C4 counterexample: with properties `sequence_id = ""` (present but
empty) and `id = "X"`, the claim as stated takes the first present property
and yields key `""`, but the code skips the falsy value and yields `"X"`. -/
theorem getSequenceId_present_not_first_cex :
    getSequenceId "r0" ⟨none, [("sequence_id", ""), ("id", "X")]⟩ = "X" ∧
      ("X" : String) ≠ "" := ⟨rfl, by decide⟩

/-- Claim C7: the sequence comparator agrees with the sorting rule for every
pair of ids: both ids parsing as integers (in the `parseInt` sense) gives the
numeric comparison, and a pair with at least one non-numeric side always uses
the lexical comparator, never the numeric branch. -/
theorem seqCompare_spec (loc : String → String → Int) (a b : Sequence) :
    seqCompare loc a b = specCompare loc a.id b.id ∧
    ((jsParseInt a.id).isNone ∨ (jsParseInt b.id).isNone →
      seqCompare loc a b = loc a.id b.id) := by
  unfold seqCompare specCompare
  rcases h1 : jsParseInt a.id with _ | x <;>
    rcases h2 : jsParseInt b.id with _ | y <;> simp [h1, h2]

/-- Claim C7 witness: a concrete numeric pair and a concrete mixed pair. -/
theorem seqCompare_spec_witness :
    seqCompare (fun _ _ => 7)
      ⟨"2abc", [], "", "", 0, 0, 0⟩ ⟨"10", [], "", "", 0, 0, 0⟩ =
      specCompare (fun _ _ => 7) "2abc" "10" ∧
    seqCompare (fun _ _ => 7)
      ⟨"x1", [], "", "", 0, 0, 0⟩ ⟨"10", [], "", "", 0, 0, 0⟩ = 7 := by
  constructor
  · exact (seqCompare_spec (fun _ _ => 7)
      ⟨"2abc", [], "", "", 0, 0, 0⟩ ⟨"10", [], "", "", 0, 0, 0⟩).1
  · exact (seqCompare_spec (fun _ _ => 7)
      ⟨"x1", [], "", "", 0, 0, 0⟩ ⟨"10", [], "", "", 0, 0, 0⟩).2 (Or.inl (by decide))

set_option maxRecDepth 8000 in
/-- Claim C8: the CSV example with header `sequence_id,lat,lon` and rows
`A,1.0,103.0`, `A,1.1,103.1`, `B,1.2,103.2` parses to exactly two features:
sequence `A` with LineString `[[103.0, 1.0], [103.1, 1.1]]` (coordinates in
lon/lat order, rows in file order) and sequence `B` with Point
`[103.2, 1.2]`. -/
theorem parseCSVSync_example :
    parseCSVSync trivialCsvParams csvExample = Except.ok
      [⟨some (.lineString [(103, 1), (1031 / 10, 11 / 10)]),
         [("sequence_id", "A"), ("lat", "1.0"), ("lon", "103.0")]⟩,
       ⟨some (.point (1032 / 10, 12 / 10)),
         [("sequence_id", "B"), ("lat", "1.2"), ("lon", "103.2")]⟩] := by
  with_unfolding_all decide

lemma chunkFold_stop (f : α → Nat → α) (chunk n fuel start : Nat) (acc : α)
    (h : n ≤ start) : chunkFold f chunk n fuel start acc = acc := by
  cases fuel with
  | zero => rfl
  | succ fu => simp [chunkFold, Nat.not_lt.mpr h]

lemma chunkFold_eq_foldl (f : α → Nat → α) (chunk n : Nat) (hc : 0 < chunk) :
    ∀ (fuel start : Nat) (acc : α), n ≤ start + chunk * fuel →
      chunkFold f chunk n fuel start acc = (List.range' start (n - start)).foldl f acc := by
  intro fuel
  induction fuel with
  | zero =>
      intro start acc h
      simp only [Nat.mul_zero, Nat.add_zero] at h
      rw [Nat.sub_eq_zero_of_le h]
      simp [chunkFold]
  | succ fu ih =>
      intro start acc h
      rw [chunkFold]
      by_cases hlt : start < n
      · simp only [if_pos hlt]
        by_cases hbig : start + chunk ≤ n
        · rw [Nat.min_eq_left hbig, ih (start + chunk) _ (by
            rw [Nat.mul_succ] at h
            omega)]
          have hsplit : List.range' start (n - start) =
              List.range' start chunk ++ List.range' (start + chunk) (n - (start + chunk)) := by
            rw [List.range'_append_1]
            congr 1
            omega
          have hx : start + chunk - start = chunk := by omega
          rw [hx, hsplit, List.foldl_append]
        · rw [Nat.min_eq_right (by omega), chunkFold_stop _ _ _ _ _ _ (by omega)]
      · simp only [if_neg hlt]
        rw [Nat.sub_eq_zero_of_le (by omega)]
        simp

lemma enum_eq_range'_map (l : List α) (d : α) :
    l.enum = (List.range' 0 l.length).map (fun i => (i, l.getD i d)) := by
  apply List.ext_getElem
  · simp
  · intro i h1 h2
    have hl : i < l.length := by simpa using h1
    simp [List.getElem_range'_1, List.getD_eq_getElem?_getD,
      List.getElem?_eq_getElem hl, List.getElem_enum]

lemma foldl_enum_index (l : List α) (d : α) (g : β → Nat × α → β) (init : β) :
    l.enum.foldl g init =
      (List.range' 0 l.length).foldl (fun acc i => g acc (i, l.getD i d)) init := by
  rw [enum_eq_range'_map l d, List.foldl_map]

lemma foldl_append_eq_map (h : Nat → β) : ∀ (r : List Nat) (init : List β),
    r.foldl (fun acc i => acc ++ [h i]) init = init ++ r.map h := by
  intro r
  induction r with
  | nil => simp
  | cons a rs ih => intro init; simp [ih]

lemma range'_map_getD (l : List α) (d : α) (g : α → β) :
    (List.range' 0 l.length).map (fun i => g (l.getD i d)) = l.map g := by
  apply List.ext_getElem
  · simp
  · intro i h1 h2
    have hl : i < l.length := by simpa using h2
    simp [List.getElem_range'_1, List.getD_eq_getElem?_getD, List.getElem?_eq_getElem hl]

/-- Claim C1: for every CSV text the chunked incremental parse returns exactly
the same feature list as the whole-file parse (or the same error), and for
every feature list the chunked grouping path returns exactly the same sequence
list (same keys, feature order, statistics and ordering) as the non-chunked
path — for every choice of the host parameters (JSON blocks, locale
comparator, random oracle, current date) shared by the two paths. -/
theorem chunked_equals_sync (P : CsvParams) (csvText : String)
    (loc : String → String → Int) (rnd : Nat → String) (today : String)
    (prior : List Sequence) (features : List Feature) :
    parseCSVAsync P csvText = parseCSVSync P csvText ∧
    processGeoJSONAsync loc rnd today prior features =
      processGeoJSON loc rnd today prior features := by
  constructor
  · simp only [parseCSVAsync, parseCSVSync]
    rw [chunkFold_eq_foldl _ 50 (csvLines csvText).length (by omega)
      (csvLines csvText).length 1 [] (by
        have h50 : (csvLines csvText).length ≤ 50 * (csvLines csvText).length := by omega
        omega)]
  · simp only [processGeoJSONAsync, processGeoJSON]
    rw [chunkFold_eq_foldl _ 100 features.length (by omega) features.length 0 [] (by
        have : features.length ≤ 100 * features.length := by omega
        omega)]
    simp only [Nat.sub_zero]
    rw [← foldl_enum_index features default
      (addFeature prior today rnd) []]
    congr 1
    rw [chunkFold_eq_foldl _ 50 _ (by omega) _ 0 [] (by
        have : ((features.enum.foldl (addFeature prior today rnd) []).map Prod.snd).length ≤
          50 * ((features.enum.foldl (addFeature prior today rnd) []).map Prod.snd).length := by
          omega
        omega)]
    simp only [Nat.sub_zero]
    rw [foldl_append_eq_map, range'_map_getD]
    simp

lemma stableInsert_perm (c : α → α → Int) (x : α) (l : List α) :
    (stableInsert c x l).Perm (x :: l) := by
  induction l with
  | nil => simp [stableInsert]
  | cons y ys ih =>
      rw [stableInsert]
      split_ifs
      · exact (ih.cons y).trans (List.Perm.swap x y ys)
      · exact List.Perm.refl _

lemma jsSort_perm (c : α → α → Int) (l : List α) : (jsSort c l).Perm l := by
  have key : ∀ (m : List α) (acc : List α),
      (m.foldl (fun acc x => stableInsert c x acc) acc).Perm (acc ++ m) := by
    intro m
    induction m with
    | nil => simp
    | cons x xs ih =>
        intro acc
        refine (ih (stableInsert c x acc)).trans ?_
        refine (((stableInsert_perm c x acc).append_right xs).trans ?_)
        exact List.perm_middle.symm.trans (List.Perm.refl _) |>.symm |>.symm
  simpa using key l []

lemma pushFeature_entries {k : String} {f : Feature} :
    ∀ {acc : List (String × PreSeq)} {p}, p ∈ pushFeature k f acc →
      ∃ q ∈ acc, q.1 = p.1 ∧ q.2.id = p.2.id ∧ q.2.status = p.2.status := by
  intro acc
  induction acc with
  | nil => intro p hp; simp [pushFeature] at hp
  | cons e rest ih =>
      rcases e with ⟨k₀, s⟩
      intro p hp
      rw [pushFeature] at hp
      split_ifs at hp with hk
      · rcases List.mem_cons.mp hp with h | h
        · subst h
          exact ⟨(k₀, s), List.mem_cons_self _ _, rfl, rfl, rfl⟩
        · exact ⟨p, List.mem_cons_of_mem _ h, rfl, rfl, rfl⟩
      · rcases List.mem_cons.mp hp with h | h
        · exact ⟨p, h ▸ List.mem_cons_self _ _, rfl, rfl, rfl⟩
        · rcases ih h with ⟨q, hq, h1, h2, h3⟩
          exact ⟨q, List.mem_cons_of_mem _ hq, h1, h2, h3⟩

lemma grouped_status_inv (prior : List Sequence) (today : String) (rnd : Nat → String) :
    ∀ (l : List (Nat × Feature)) (acc : List (String × PreSeq)),
      (∀ p ∈ acc, p.2.id = p.1 ∧ p.2.status = (statusLookup prior p.1).getD "") →
      ∀ p ∈ l.foldl (addFeature prior today rnd) acc,
        p.2.id = p.1 ∧ p.2.status = (statusLookup prior p.1).getD "" := by
  intro l
  induction l with
  | nil => intro acc hacc p hp; exact hacc p hp
  | cons x xs ih =>
      intro acc hacc p hp
      rw [List.foldl_cons] at hp
      refine ih _ ?_ p hp
      intro q hq
      simp only [addFeature] at hq
      rcases pushFeature_entries hq with ⟨r, hr, h1, h2, h3⟩
      rw [← h1, ← h2, ← h3]
      clear hq
      split_ifs at hr with hsome
      · exact hacc r hr
      · rcases List.mem_append.mp hr with h | h
        · exact hacc r h
        · rcases List.mem_singleton.mp h with rfl
          exact ⟨rfl, rfl⟩

/-- Claim C2: re-aggregation never changes the status of a sequence key that
already existed — a sequence of the merged output whose key had status `s` in
the prior state again has status `s`, for any `s` (in particular for
`""`, `"skipped"`, `"done"`), and a key not seen before receives status `""`
(active). This holds for every prior state, feature list and host
parameter. -/
theorem status_preserved (loc : String → String → Int) (rnd : Nat → String)
    (today : String) (prior : List Sequence) (features : List Feature)
    (K s : String) :
    (statusLookup prior K = some s →
      ∀ sq ∈ processGeoJSON loc rnd today prior features,
        sq.id = K → sq.status = s) ∧
    (statusLookup prior K = none →
      ∀ sq ∈ processGeoJSON loc rnd today prior features,
        sq.id = K → sq.status = "") := by
  have main : ∀ sq ∈ processGeoJSON loc rnd today prior features,
      sq.id = K → sq.status = (statusLookup prior K).getD "" := by
    intro sq hsq hid
    simp only [processGeoJSON] at hsq
    rw [(jsSort_perm _ _).mem_iff] at hsq
    rcases List.mem_map.mp hsq with ⟨pre, hpre, hsq'⟩
    rcases List.mem_map.mp hpre with ⟨p, hp, hpre'⟩
    have hinv := grouped_status_inv prior today rnd features.enum []
      (by intro q hq; simp at hq) p hp
    have hst : sq.status = p.2.status := by rw [← hsq', ← hpre']; rfl
    have hidp : p.2.id = K := by rw [← hid, ← hsq', ← hpre']; rfl
    rw [hst, hinv.2, ← hinv.1, hidp]
  constructor
  · intro hlook sq hsq hid
    have := main sq hsq hid
    rw [hlook] at this
    simpa using this
  · intro hlook sq hsq hid
    have := main sq hsq hid
    rw [hlook] at this
    simpa using this

/-- Claim C2 witness: merging a new feature for existing key `A` with status
`done` yields a sequence list whose `A` entry still has status `done`. -/
theorem status_preserved_witness :
    ((processGeoJSON (fun _ _ => 0) (fun _ => "r") "d"
        [⟨"A", [], "done", "", 0, 0, 0⟩]
        [⟨none, [("sequence_id", "A")]⟩]).getD 0 default).status = "done" :=
  (status_preserved (fun _ _ => 0) (fun _ => "r") "d"
      [⟨"A", [], "done", "", 0, 0, 0⟩]
      [⟨none, [("sequence_id", "A")]⟩] "A" "done").1 (by decide)
    _ (by decide) (by decide)

lemma lookup_mem {m : List (String × α)} {k : String} {v : α}
    (h : m.lookup k = some v) : (k, v) ∈ m := by
  rcases List.lookup_eq_some_iff.mp h with ⟨l₁, l₂, rfl, _⟩
  simp

lemma insertCoord_lookup_mono {m : List (String × OsmNode)} {k : String}
    (h : (m.lookup k).isSome) (c : ℚ × ℚ) :
    ((insertCoord m c).lookup k).isSome := by
  simp only [insertCoord]
  split_ifs with hs
  · exact h
  · rw [List.lookup_append]
    rcases Option.isSome_iff_exists.mp h with ⟨v, hv⟩
    simp [hv]

lemma insertCoord_lookup_self (m : List (String × OsmNode)) (c : ℚ × ℚ) :
    ((insertCoord m c).lookup (coordKey c)).isSome := by
  simp only [insertCoord]
  split_ifs with hs
  · exact hs
  · rw [List.lookup_append]
    rw [Option.not_isSome_iff_eq_none] at hs
    simp [hs]

lemma foldl_insertCoord_mono {k : String} :
    ∀ (cs : List (ℚ × ℚ)) (m : List (String × OsmNode)),
      (m.lookup k).isSome → ((cs.foldl insertCoord m).lookup k).isSome := by
  intro cs
  induction cs with
  | nil => intro m h; exact h
  | cons c rest ih =>
      intro m h
      exact ih _ (insertCoord_lookup_mono h c)

lemma foldl_insertCoord_self {c : ℚ × ℚ} :
    ∀ (cs : List (ℚ × ℚ)) (m : List (String × OsmNode)), c ∈ cs →
      ((cs.foldl insertCoord m).lookup (coordKey c)).isSome := by
  intro cs
  induction cs with
  | nil => intro m h; simp at h
  | cons c₀ rest ih =>
      intro m h
      rcases List.mem_cons.mp h with rfl | h
      · exact foldl_insertCoord_mono rest _ (insertCoord_lookup_self m c)
      · exact ih _ h

lemma nodeStep_lookup_mono {k : String} {m : List (String × OsmNode)}
    (h : (m.lookup k).isSome) (f : Feature) :
    ((nodeStep m f).lookup k).isSome := by
  unfold nodeStep
  rcases f.geometry with _ | g
  · exact h
  · exact foldl_insertCoord_mono _ _ h

lemma foldl_nodeStep_mono {k : String} :
    ∀ (fs : List Feature) (m : List (String × OsmNode)),
      (m.lookup k).isSome → ((fs.foldl nodeStep m).lookup k).isSome := by
  intro fs
  induction fs with
  | nil => intro m h; exact h
  | cons f rest ih => intro m h; exact ih _ (nodeStep_lookup_mono h f)

lemma buildNodeMap_lookup_isSome {fs : List Feature} {f : Feature}
    {g : Geometry} {c : ℚ × ℚ} (hf : f ∈ fs) (hg : f.geometry = some g)
    (hc : c ∈ extractCoordinates g) :
    ((buildNodeMap fs).lookup (coordKey c)).isSome := by
  rcases List.append_of_mem hf with ⟨l₁, l₂, rfl⟩
  unfold buildNodeMap
  rw [List.foldl_append, List.foldl_cons]
  apply foldl_nodeStep_mono
  unfold nodeStep
  rw [hg]
  exact foldl_insertCoord_self _ _ hc

lemma insertCoord_keys_nodup {m : List (String × OsmNode)}
    (h : (m.map Prod.fst).Nodup) (c : ℚ × ℚ) :
    ((insertCoord m c).map Prod.fst).Nodup := by
  simp only [insertCoord]
  split_ifs with hs
  · exact h
  · rw [Option.not_isSome_iff_eq_none, List.lookup_eq_none_iff] at hs
    rw [List.map_append]
    simp only [List.map_cons, List.map_nil]
    rw [List.nodup_append]
    refine ⟨h, List.nodup_singleton _, ?_⟩
    intro a ha hb
    simp at hb
    rcases List.mem_map.mp ha with ⟨p, hp, rfl⟩
    have := hs p hp
    simp [hb] at this

lemma insertCoord_ids (m : List (String × OsmNode))
    (h : ∀ i, i < m.length → (m.getD i default).2.id = -1000 - i) (c : ℚ × ℚ) :
    ∀ i, i < (insertCoord m c).length →
      ((insertCoord m c).getD i default).2.id = -1000 - i := by
  by_cases hs : (m.lookup (coordKey c)).isSome
  · simp only [insertCoord, if_pos hs]
    exact h
  · simp only [insertCoord, if_neg hs]
    intro i hi
    have hi2 : i < m.length + 1 := by simpa using hi
    by_cases hlt : i < m.length
    · rw [List.getD_eq_getElem?_getD, List.getElem?_append_left hlt,
        ← List.getD_eq_getElem?_getD]
      exact h i hlt
    · have hieq : i = m.length := by omega
      subst hieq
      rw [List.getD_eq_getElem?_getD, List.getElem?_append_right (Nat.le_refl _)]
      simp

lemma buildNodeMap_keys_nodup (fs : List Feature) :
    ((buildNodeMap fs).map Prod.fst).Nodup := by
  unfold buildNodeMap
  refine List.foldlRecOn (motive := fun m => (m.map Prod.fst).Nodup)
    fs nodeStep [] (by simp) ?_
  intro m hm f hf
  unfold nodeStep
  rcases f.geometry with _ | g
  · exact hm
  · exact List.foldlRecOn (motive := fun m => (m.map Prod.fst).Nodup)
      _ insertCoord m hm (fun m' hm' c hc => insertCoord_keys_nodup hm' c)

lemma buildNodeMap_ids (fs : List Feature) :
    ∀ i, i < (buildNodeMap fs).length →
      ((buildNodeMap fs).getD i default).2.id = -1000 - i := by
  unfold buildNodeMap
  refine List.foldlRecOn
    (motive := fun m => ∀ i : Nat, i < m.length → (m.getD i default).2.id = -1000 - (i : Int))
    fs nodeStep [] (by intro i hi; simp at hi) ?_
  intro m hm f hf
  unfold nodeStep
  rcases f.geometry with _ | g
  · exact hm
  · exact List.foldlRecOn
      (motive := fun m => ∀ i : Nat, i < m.length → (m.getD i default).2.id = -1000 - (i : Int))
      _ insertCoord m hm (fun m' hm' c hc => insertCoord_ids m' hm' c)

lemma filterMap_eq_map_getD (f : α → Option β) (d : β) :
    ∀ l : List α, (∀ x ∈ l, (f x).isSome) →
      l.filterMap f = l.map (fun x => (f x).getD d) := by
  intro l
  induction l with
  | nil => intro _; rfl
  | cons x xs ih =>
      intro h
      rcases Option.isSome_iff_exists.mp (h x (List.mem_cons_self _ _)) with ⟨v, hv⟩
      rw [List.filterMap_cons_some hv, List.map_cons,
        ih (fun y hy => h y (List.mem_cons_of_mem _ hy)), hv]
      rfl

lemma buildWays_closure (fs : List Feature) :
    ∀ w ∈ buildWays fs, ∀ r ∈ w.nds, ∃ p ∈ buildNodeMap fs, p.2.id = r := by
  unfold buildWays
  refine List.foldlRecOn
    (motive := fun acc : List OsmWay × Int =>
      ∀ w ∈ acc.1, ∀ r ∈ w.nds, ∃ p ∈ buildNodeMap fs, p.2.id = r)
    fs (wayStep (buildNodeMap fs)) ([], -1000) (by simp) ?_
  intro acc hacc f hf
  rcases hg : f.geometry with _ | g <;> simp only [wayStep, hg]
  · exact hacc
  · split_ifs with hlen
    · exact hacc
    · intro w hw r hr
      rcases List.mem_append.mp hw with h | h
      · exact hacc w h r hr
      · rcases List.mem_singleton.mp h with rfl
        rcases List.mem_filterMap.mp hr with ⟨c, hc, hcr⟩
        rcases Option.map_eq_some'.mp hcr with ⟨n, hn, rfl⟩
        exact ⟨(coordKey c, n), lookup_mem hn, rfl⟩

lemma buildWays_aux_mono {nm : List (String × OsmNode)} {w : OsmWay} :
    ∀ (l : List Feature) (acc : List OsmWay × Int),
      w ∈ acc.1 → w ∈ (l.foldl (wayStep nm) acc).1 := by
  intro l
  induction l with
  | nil => intro acc h; exact h
  | cons f rest ih =>
      intro acc h
      rw [List.foldl_cons]
      apply ih
      rcases hg : f.geometry with _ | g <;> simp only [wayStep, hg]
      · exact h
      · split_ifs with hlen
        · exact h
        · exact List.mem_append_left _ h

lemma buildWays_mem_of_feature (fs : List Feature) (f : Feature) (g : Geometry)
    (hf : f ∈ fs) (hg : f.geometry = some g)
    (hlen : 2 ≤ (extractCoordinates g).length) :
    ∃ w ∈ buildWays fs,
      w.nds = (extractCoordinates g).filterMap
        (fun c => ((buildNodeMap fs).lookup (coordKey c)).map (fun n => n.id)) ∧
      w.highway = propOr f.properties "highway" "unclassified" := by
  rcases List.append_of_mem hf with ⟨l₁, l₂, rfl⟩
  unfold buildWays
  rw [List.foldl_append, List.foldl_cons]
  have hstep : wayStep (buildNodeMap (l₁ ++ f :: l₂))
      (l₁.foldl (wayStep (buildNodeMap (l₁ ++ f :: l₂))) ([], -1000)) f =
      ((l₁.foldl (wayStep (buildNodeMap (l₁ ++ f :: l₂))) ([], -1000)).1 ++
        [⟨(l₁.foldl (wayStep (buildNodeMap (l₁ ++ f :: l₂))) ([], -1000)).2,
          (extractCoordinates g).filterMap
            (fun c => ((buildNodeMap (l₁ ++ f :: l₂)).lookup (coordKey c)).map
              (fun n => n.id)),
          propOr f.properties "highway" "unclassified"⟩],
        (l₁.foldl (wayStep (buildNodeMap (l₁ ++ f :: l₂))) ([], -1000)).2 - 1) := by
    simp only [wayStep, hg]
    rw [if_neg (by omega)]
  rw [hstep]
  exact ⟨_, buildWays_aux_mono l₂ _
    (List.mem_append_right _ (List.mem_singleton_self _)), rfl, rfl⟩

/-- Claim C10: the export is referentially closed — every `nd` reference of
every generated way is the id of some node of the node table (which is
emitted before all ways in the document) — and every feature with at least 2
extracted coordinates yields a way holding one reference per coordinate, in
geometry order, each resolved through the 7-decimal dedup key. -/
theorem osm_referential_closure (fs : List Feature) :
    (∀ w ∈ buildWays fs, ∀ r ∈ w.nds, ∃ p ∈ buildNodeMap fs, p.2.id = r) ∧
    (∀ f ∈ fs, ∀ g, f.geometry = some g → 2 ≤ (extractCoordinates g).length →
      ∃ w ∈ buildWays fs,
        w.nds = (extractCoordinates g).map
          (fun c => (((buildNodeMap fs).lookup (coordKey c)).map
            (fun n => n.id)).getD 0)) := by
  constructor
  · exact buildWays_closure fs
  · intro f hf g hg hlen
    rcases buildWays_mem_of_feature fs f g hf hg hlen with ⟨w, hw, hnds, _⟩
    refine ⟨w, hw, ?_⟩
    rw [hnds]
    apply filterMap_eq_map_getD
    intro c hc
    rcases Option.isSome_iff_exists.mp (buildNodeMap_lookup_isSome hf hg hc) with ⟨n, hn⟩
    rw [hn]
    rfl

lemma extract_lineString (cs : List (ℚ × ℚ)) :
    extractCoordinates (.lineString cs) = cs := rfl

lemma buildWays_lineString (fs : List Feature) (f : Feature) (cs : List (ℚ × ℚ))
    (hf : f ∈ fs) (hgf : f.geometry = some (.lineString cs)) (hlf : 2 ≤ cs.length) :
    ∃ w ∈ buildWays fs, w.nds = cs.map
      (fun c => (((buildNodeMap fs).lookup (coordKey c)).map (fun m => m.id)).getD 0) := by
  rcases buildWays_mem_of_feature fs f _ hf hgf
    (by rw [extract_lineString]; exact hlf) with ⟨w, hw, hnds, _⟩
  refine ⟨w, hw, ?_⟩
  rw [hnds, extract_lineString]
  apply filterMap_eq_map_getD
  intro c hc
  rcases Option.isSome_iff_exists.mp
    (buildNodeMap_lookup_isSome hf hgf (by rw [extract_lineString]; exact hc)) with ⟨n, hn⟩
  rw [hn]
  rfl

/-- Claim C6: node deduplication is keyed on `lat,lon` formatted to 7 decimal
places — for any two LineString features of a sequence sharing a coordinate
whose 7-decimal key agrees, the node table holds exactly one node for that
key, both features' ways reference that node's id in their `nd` lists (which
resolve every coordinate through the same key), and the node ids are the
strictly decreasing synthetic ids `-1000, -1001, ...` in first-seen order. -/
theorem osm_node_dedup (fs : List Feature) (f1 f2 : Feature)
    (cs1 cs2 : List (ℚ × ℚ)) (c1 c2 : ℚ × ℚ)
    (h1 : f1 ∈ fs) (h2 : f2 ∈ fs)
    (hg1 : f1.geometry = some (.lineString cs1))
    (hg2 : f2.geometry = some (.lineString cs2))
    (hl1 : 2 ≤ cs1.length) (hl2 : 2 ≤ cs2.length)
    (hc1 : c1 ∈ cs1) (hc2 : c2 ∈ cs2)
    (hkey : coordKey c1 = coordKey c2) :
    ((buildNodeMap fs).map Prod.fst).count (coordKey c1) = 1 ∧
    (∃ n, (buildNodeMap fs).lookup (coordKey c1) = some n ∧
      (∃ w1 ∈ buildWays fs, w1.nds = cs1.map
          (fun c => (((buildNodeMap fs).lookup (coordKey c)).map (fun m => m.id)).getD 0) ∧
        n.id ∈ w1.nds) ∧
      (∃ w2 ∈ buildWays fs, w2.nds = cs2.map
          (fun c => (((buildNodeMap fs).lookup (coordKey c)).map (fun m => m.id)).getD 0) ∧
        n.id ∈ w2.nds)) ∧
    (∀ i, i < (buildNodeMap fs).length →
      ((buildNodeMap fs).getD i default).2.id = -1000 - (i : Int)) := by
  have hmem : ((buildNodeMap fs).lookup (coordKey c1)).isSome :=
    buildNodeMap_lookup_isSome h1 hg1 (by rw [extract_lineString]; exact hc1)
  rcases Option.isSome_iff_exists.mp hmem with ⟨n, hn⟩
  refine ⟨?_, ⟨n, hn, ?_, ?_⟩, buildNodeMap_ids fs⟩
  · exact List.count_eq_one_of_mem (buildNodeMap_keys_nodup fs)
      (List.mem_map.mpr ⟨(coordKey c1, n), lookup_mem hn, rfl⟩)
  · rcases buildWays_lineString fs f1 cs1 h1 hg1 hl1 with ⟨w, hw, hnds⟩
    refine ⟨w, hw, hnds, ?_⟩
    rw [hnds]
    refine List.mem_map.mpr ⟨c1, hc1, ?_⟩
    rw [hn]
    rfl
  · rcases buildWays_lineString fs f2 cs2 h2 hg2 hl2 with ⟨w, hw, hnds⟩
    refine ⟨w, hw, hnds, ?_⟩
    rw [hnds]
    refine List.mem_map.mpr ⟨c2, hc2, ?_⟩
    rw [← hkey, hn]
    rfl

set_option maxRecDepth 8000 in
/-- Claim C6 witness: two LineStrings sharing endpoint `(1, 1)` produce one
node for it. -/
theorem osm_node_dedup_witness :
    ((buildNodeMap [⟨some (.lineString [(0, 0), (1, 1)]), []⟩,
        ⟨some (.lineString [(1, 1), (2, 2)]), []⟩]).map Prod.fst).count
      (coordKey (1, 1)) = 1 :=
  (osm_node_dedup
    [⟨some (.lineString [(0, 0), (1, 1)]), []⟩,
     ⟨some (.lineString [(1, 1), (2, 2)]), []⟩]
    ⟨some (.lineString [(0, 0), (1, 1)]), []⟩
    ⟨some (.lineString [(1, 1), (2, 2)]), []⟩
    [(0, 0), (1, 1)] [(1, 1), (2, 2)] (1, 1) (1, 1)
    (by with_unfolding_all decide) (by with_unfolding_all decide) rfl rfl
    (by with_unfolding_all decide) (by with_unfolding_all decide)
    (by with_unfolding_all decide) (by with_unfolding_all decide) rfl).1

set_option maxRecDepth 8000 in
/-- Claim C10 witness: in the two-LineString example above, the first way's
first `nd` reference resolves to a node of the table. -/
theorem osm_referential_closure_witness :
    ∃ p ∈ buildNodeMap [⟨some (.lineString [(0, 0), (1, 1)]), []⟩,
        ⟨some (.lineString [(1, 1), (2, 2)]), []⟩], p.2.id = -1000 :=
  (osm_referential_closure
    [⟨some (.lineString [(0, 0), (1, 1)]), []⟩,
     ⟨some (.lineString [(1, 1), (2, 2)]), []⟩]).1
    ((buildWays [⟨some (.lineString [(0, 0), (1, 1)]), []⟩,
        ⟨some (.lineString [(1, 1), (2, 2)]), []⟩]).getD 0 default)
    (by with_unfolding_all decide) (-1000) (by with_unfolding_all decide)

lemma getD_eq_getElem {l : List α} {i : Nat} (h : i < l.length) (d : α) :
    l.getD i d = l[i] := by
  rw [List.getD_eq_getElem?_getD, List.getElem?_eq_getElem h, Option.getD_some]

lemma getD_append_left {l₁ l₂ : List α} {i : Nat} (h : i < l₁.length) (d : α) :
    (l₁ ++ l₂).getD i d = l₁.getD i d := by
  rw [List.getD_eq_getElem?_getD, List.getElem?_append_left h,
    ← List.getD_eq_getElem?_getD]

lemma getD_append_right {l₁ l₂ : List α} {i : Nat} (h : l₁.length ≤ i) (d : α) :
    (l₁ ++ l₂).getD i d = l₂.getD (i - l₁.length) d := by
  rw [List.getD_eq_getElem?_getD, List.getElem?_append_right h,
    ← List.getD_eq_getElem?_getD]

lemma getD_dropLast {l : List α} {i : Nat} (h : i < l.length - 1) (d : α) :
    (l.dropLast).getD i d = l.getD i d := by
  have h1 : i < l.dropLast.length := by simpa using h
  have h2 : i < l.length := by omega
  rw [getD_eq_getElem h1, getD_eq_getElem h2, List.getElem_dropLast]

lemma getD_drop {l : List α} {k i : Nat} (h : k + i < l.length) (d : α) :
    (l.drop k).getD i d = l.getD (k + i) d := by
  have h1 : i < (l.drop k).length := by
    rw [List.length_drop]
    omega
  rw [getD_eq_getElem h1, getD_eq_getElem h, List.getElem_drop]

lemma getD_take {l : List α} {k i : Nat} (hik : i < k) (hil : i < l.length) (d : α) :
    (l.take k).getD i d = l.getD i d := by
  have h1 : i < (l.take k).length := by
    rw [List.length_take]
    omega
  rw [getD_eq_getElem h1, getD_eq_getElem hil, List.getElem_take]

lemma interior_getD_mem {l : List α} {k : Nat} (hl : 2 < l.length)
    (hk1 : 1 ≤ k) (hk2 : k ≤ l.length - 2) (d : α) :
    l.getD k d ∈ (l.drop 1).dropLast := by
  have hidx : k - 1 < ((l.drop 1).dropLast).length := by
    simp only [List.length_dropLast, List.length_drop]
    omega
  have heq : ((l.drop 1).dropLast)[k - 1] = l.getD k d := by
    rw [List.getElem_dropLast, List.getElem_drop]
    rw [getD_eq_getElem (show k < l.length by omega)]
    have hik : 1 + (k - 1) = k := by omega
    simp only [hik]
  rw [← heq]
  exact List.getElem_mem hidx

lemma mem_interior_exists {l : List α} {q : α} (h : q ∈ (l.drop 1).dropLast) (d : α) :
    ∃ k, 1 ≤ k ∧ k ≤ l.length - 2 ∧ q = l.getD k d := by
  rcases List.mem_iff_getElem.mp h with ⟨i, hi, hq⟩
  have hi2 : i < l.length - 2 := by
    have := hi
    simp only [List.length_dropLast, List.length_drop] at this
    omega
  refine ⟨i + 1, by omega, by omega, ?_⟩
  rw [← hq, List.getElem_dropLast, List.getElem_drop]
  rw [getD_eq_getElem (show i + 1 < l.length by omega)]
  have hik : 1 + i = i + 1 := by omega
  simp only [hik]

lemma findMax_spec (f : Nat → ℚ) (n : Nat) :
    (findMax f n = (0, 0) ∧ ∀ i, 1 ≤ i → i ≤ n - 2 → f i ≤ 0) ∨
    (0 < (findMax f n).1 ∧ 1 ≤ (findMax f n).2 ∧ (findMax f n).2 ≤ n - 2 ∧
     (findMax f n).1 = f (findMax f n).2 ∧
     (∀ i, 1 ≤ i → i < (findMax f n).2 → f i < (findMax f n).1) ∧
     (∀ i, 1 ≤ i → i ≤ n - 2 → f i ≤ (findMax f n).1)) := by
  suffices h : ∀ k : Nat,
      ((List.range' 1 k).foldl (stepMax f) (0, 0) = (0, 0) ∧
        ∀ i, 1 ≤ i → i ≤ k → f i ≤ 0) ∨
      (0 < ((List.range' 1 k).foldl (stepMax f) (0, 0)).1 ∧
       1 ≤ ((List.range' 1 k).foldl (stepMax f) (0, 0)).2 ∧
       ((List.range' 1 k).foldl (stepMax f) (0, 0)).2 ≤ k ∧
       ((List.range' 1 k).foldl (stepMax f) (0, 0)).1 =
         f ((List.range' 1 k).foldl (stepMax f) (0, 0)).2 ∧
       (∀ i, 1 ≤ i → i < ((List.range' 1 k).foldl (stepMax f) (0, 0)).2 →
         f i < ((List.range' 1 k).foldl (stepMax f) (0, 0)).1) ∧
       (∀ i, 1 ≤ i → i ≤ k →
         f i ≤ ((List.range' 1 k).foldl (stepMax f) (0, 0)).1)) by
    exact h (n - 2)
  intro k
  induction k with
  | zero =>
      left
      exact ⟨rfl, fun i h1 h2 => by omega⟩
  | succ k ih =>
      have hsplit : List.range' 1 (k + 1) = List.range' 1 k ++ [k + 1] := by
        have h := List.range'_append_1 1 k 1
        rw [List.range'_one] at h
        rw [Nat.add_comm 1 k] at h
        exact h.symm
      rw [hsplit, List.foldl_append, List.foldl_cons, List.foldl_nil]
      rcases ih with ⟨hr, hle⟩ | ⟨hpos, h1, h2, heq, hfirst, hall⟩
      · rw [hr]
        by_cases hgt : f (k + 1) > (0 : ℚ)
        · right
          rw [stepMax, if_pos (by simpa using hgt)]
          refine ⟨by simpa using hgt, by simp, by simp, rfl, ?_, ?_⟩
          · intro i hi1 hi2
            simp at hi2
            exact lt_of_le_of_lt (hle i hi1 (by omega)) (by simpa using hgt)
          · intro i hi1 hi2
            by_cases hik : i ≤ k
            · exact le_of_lt (lt_of_le_of_lt (hle i hi1 hik) (by simpa using hgt))
            · have hieq : i = k + 1 := by omega
              subst hieq
              simp
        · left
          rw [stepMax, if_neg (by simpa using hgt)]
          refine ⟨rfl, ?_⟩
          intro i hi1 hi2
          by_cases hik : i ≤ k
          · exact hle i hi1 hik
          · have hieq : i = k + 1 := by omega
            subst hieq
            simpa using hgt
      · by_cases hgt : f (k + 1) > ((List.range' 1 k).foldl (stepMax f) (0, 0)).1
        · right
          rw [stepMax, if_pos (by simpa using hgt)]
          refine ⟨lt_trans hpos hgt, by simp, by simp, rfl, ?_, ?_⟩
          · intro i hi1 hi2
            simp at hi2
            exact lt_of_le_of_lt (hall i hi1 (by omega)) hgt
          · intro i hi1 hi2
            by_cases hik : i ≤ k
            · exact le_of_lt (lt_of_le_of_lt (hall i hi1 hik) hgt)
            · have hieq : i = k + 1 := by omega
              subst hieq
              simp
        · right
          rw [stepMax, if_neg (by simpa using hgt)]
          refine ⟨hpos, h1, by omega, heq, hfirst, ?_⟩
          intro i hi1 hi2
          by_cases hik : i ≤ k
          · exact hall i hi1 hik
          · have hieq : i = k + 1 := by omega
            subst hieq
            simpa using hgt

lemma findMax_exact (f : Nat → ℚ) (n : Nat) (M : ℚ) (i0 : Nat)
    (hM : 0 < M) (hi0a : 1 ≤ i0) (hi0b : i0 ≤ n - 2) (heq : f i0 = M)
    (hfirst : ∀ i, 1 ≤ i → i < i0 → f i < M)
    (hall : ∀ i, 1 ≤ i → i ≤ n - 2 → f i ≤ M) :
    findMax f n = (M, i0) := by
  rcases findMax_spec f n with ⟨hr, hle⟩ | ⟨hpos, h1, h2, hfeq, hf, ha⟩
  · exact absurd (hle i0 hi0a hi0b) (by rw [heq]; exact not_le.mpr hM)
  · have hle1 : (findMax f n).1 ≤ M := by rw [hfeq]; exact hall _ h1 h2
    have hge1 : M ≤ (findMax f n).1 := by rw [← heq]; exact ha i0 hi0a hi0b
    have hMeq : (findMax f n).1 = M := le_antisymm hle1 hge1
    have hieq : (findMax f n).2 = i0 := by
      by_contra hne
      rcases Nat.lt_or_ge (findMax f n).2 i0 with hlt | hge
      · have hx := hfirst _ h1 hlt
        rw [← hfeq, hMeq] at hx
        exact lt_irrefl _ hx
      · have hgt : i0 < (findMax f n).2 := by omega
        have hx := hf i0 hi0a hgt
        rw [hMeq, heq] at hx
        exact lt_irrefl _ hx
    rw [Prod.ext_iff]
    exact ⟨hMeq, hieq⟩

lemma findMax_pos_bounds (f : Nat → ℚ) (n : Nat) {t : ℚ} (ht : 0 < t)
    (hgt : (findMax f n).1 > t) :
    1 ≤ (findMax f n).2 ∧ (findMax f n).2 ≤ n - 2 := by
  rcases findMax_spec f n with ⟨hr, _⟩ | ⟨_, h1, h2, _, _, _⟩
  · rw [hr] at hgt
    simp only at hgt
    exact absurd hgt (by simp; linarith)
  · exact ⟨h1, h2⟩

lemma dpFuel_small (d : ℚ × ℚ → ℚ × ℚ → ℚ × ℚ → ℚ) (t : ℚ)
    {points : List (ℚ × ℚ)} (h : points.length ≤ 2) :
    ∀ fuel, dpFuel d fuel points t = points
  | 0 => rfl
  | fuel + 1 => by rw [dpFuel, if_pos h]

lemma dpFuel_irrel (d : ℚ × ℚ → ℚ × ℚ → ℚ × ℚ → ℚ) {t : ℚ} (ht : 0 < t) :
    ∀ (L : Nat) (points : List (ℚ × ℚ)), points.length = L →
      ∀ fuel, L ≤ fuel → dpFuel d fuel points t = dpFuel d L points t := by
  intro L
  induction L using Nat.strong_induction_on with
  | _ L ih =>
      intro points hL fuel hfuel
      by_cases hsmall : points.length ≤ 2
      · rw [dpFuel_small d t hsmall, dpFuel_small d t hsmall]
      · obtain ⟨fu, rfl⟩ : ∃ fu, fuel = fu + 1 := ⟨fuel - 1, by omega⟩
        obtain ⟨L0, rfl⟩ : ∃ L0, L = L0 + 1 := ⟨L - 1, by omega⟩
        rw [dpFuel, dpFuel, if_neg hsmall, if_neg hsmall]
        simp only
        set f := fun i => d (points.getD i (0, 0)) (points.getD 0 (0, 0))
          (points.getD (points.length - 1) (0, 0)) with hf
        by_cases hgt : (findMax f points.length).1 > t
        · rw [if_pos hgt, if_pos hgt]
          obtain ⟨hm1, hm2⟩ := findMax_pos_bounds f points.length ht hgt
          set m := (findMax f points.length).2 with hm
          have htlen : (points.take (m + 1)).length = m + 1 := by
            rw [List.length_take]
            omega
          have hdlen : (points.drop m).length = points.length - m := by
            rw [List.length_drop]
          congr 1
          · congr 1
            rw [ih (m + 1) (by omega) _ htlen fu (by omega),
              ih (m + 1) (by omega) _ htlen L0 (by omega)]
          · rw [ih (points.length - m) (by omega) _ hdlen fu (by omega),
              ih (points.length - m) (by omega) _ hdlen L0 (by omega)]
        · rw [if_neg hgt, if_neg hgt]

lemma dp_eq (d : ℚ × ℚ → ℚ × ℚ → ℚ × ℚ → ℚ) {t : ℚ} (ht : 0 < t)
    (points : List (ℚ × ℚ)) :
    douglasPeucker d points t =
      if points.length ≤ 2 then points
      else
        if (findMax (fun i => d (points.getD i (0, 0)) (points.getD 0 (0, 0))
            (points.getD (points.length - 1) (0, 0))) points.length).1 > t then
          (douglasPeucker d (points.take
            ((findMax (fun i => d (points.getD i (0, 0)) (points.getD 0 (0, 0))
              (points.getD (points.length - 1) (0, 0))) points.length).2 + 1)) t).dropLast ++
          douglasPeucker d (points.drop
            ((findMax (fun i => d (points.getD i (0, 0)) (points.getD 0 (0, 0))
              (points.getD (points.length - 1) (0, 0))) points.length).2)) t
        else [points.getD 0 (0, 0), points.getD (points.length - 1) (0, 0)] := by
  by_cases hsmall : points.length ≤ 2
  · rw [if_pos hsmall]
    exact dpFuel_small d t hsmall _
  · rw [if_neg hsmall]
    obtain ⟨L0, hL⟩ : ∃ L0, points.length = L0 + 1 := ⟨points.length - 1, by omega⟩
    have h1 : douglasPeucker d points t = dpFuel d (L0 + 1) points t := by
      rw [douglasPeucker, hL]
    rw [h1, dpFuel, if_neg hsmall]
    simp only
    set f := fun i => d (points.getD i (0, 0)) (points.getD 0 (0, 0))
      (points.getD (points.length - 1) (0, 0)) with hf
    by_cases hgt : (findMax f points.length).1 > t
    · rw [if_pos hgt, if_pos hgt]
      obtain ⟨hm1, hm2⟩ := findMax_pos_bounds f points.length ht hgt
      set m := (findMax f points.length).2 with hm
      have ht1 : (points.take (m + 1)).length ≤ L0 := by
        rw [List.length_take]
        omega
      have ht2 : (points.drop m).length ≤ L0 := by
        rw [List.length_drop]
        omega
      rw [dpFuel_irrel d ht (points.take (m + 1)).length _ rfl L0 ht1,
        dpFuel_irrel d ht (points.drop m).length _ rfl L0 ht2]
      rfl
    · rw [if_neg hgt, if_neg hgt]

lemma dropLast_drop_comm (l : List α) (k : Nat) :
    (l.dropLast).drop k = (l.drop k).dropLast := by
  apply List.ext_getElem
  · simp only [List.length_drop, List.length_dropLast]
    omega
  · intro i h1 h2
    rw [List.getElem_drop, List.getElem_dropLast, List.getElem_dropLast,
      List.getElem_drop]

lemma dp_main (d : ℚ × ℚ → ℚ × ℚ → ℚ × ℚ → ℚ) {t : ℚ} (ht : 0 < t) :
    ∀ (n : Nat) (P : List (ℚ × ℚ)), P.length = n → 2 ≤ n →
      2 ≤ (douglasPeucker d P t).length ∧
      (douglasPeucker d P t).getD 0 (0, 0) = P.getD 0 (0, 0) ∧
      (douglasPeucker d P t).getD ((douglasPeucker d P t).length - 1) (0, 0) =
        P.getD (P.length - 1) (0, 0) ∧
      (∀ q ∈ ((douglasPeucker d P t).drop 1).dropLast, q ∈ (P.drop 1).dropLast) := by
  intro n
  induction n using Nat.strong_induction_on with
  | _ n ih =>
      intro P hP hn
      rw [dp_eq d ht P]
      by_cases hsmall : P.length ≤ 2
      · rw [if_pos hsmall]
        exact ⟨by omega, rfl, rfl, fun q hq => hq⟩
      · rw [if_neg hsmall]
        set f := fun i => d (P.getD i (0, 0)) (P.getD 0 (0, 0))
          (P.getD (P.length - 1) (0, 0)) with hf
        by_cases hgt : (findMax f P.length).1 > t
        · rw [if_pos hgt]
          obtain ⟨hm1, hm2⟩ := findMax_pos_bounds f P.length ht hgt
          set m := (findMax f P.length).2 with hm
          have htake : (P.take (m + 1)).length = m + 1 := by
            rw [List.length_take]
            omega
          have hdrop : (P.drop m).length = P.length - m := List.length_drop _ _
          obtain ⟨hL2, hLhead, hLlast, hLint⟩ :=
            ih (m + 1) (by omega) (P.take (m + 1)) htake (by omega)
          obtain ⟨hR2, hRhead, hRlast, hRint⟩ :=
            ih (P.length - m) (by omega) (P.drop m) hdrop (by omega)
          set L := douglasPeucker d (P.take (m + 1)) t with hLdef
          set R := douglasPeucker d (P.drop m) t with hRdef
          have hlen : (L.dropLast ++ R).length = L.length - 1 + R.length := by
            rw [List.length_append, List.length_dropLast]
          have hdll : (L.dropLast).length = L.length - 1 := List.length_dropLast _
          refine ⟨?_, ?_, ?_, ?_⟩
          · rw [hlen]
            omega
          · rw [getD_append_left (by rw [hdll]; omega) _,
              getD_dropLast (by omega) _, hLhead,
              getD_take (by omega) (by omega) _]
          · rw [hlen, getD_append_right (by rw [hdll]; omega) _]
            have hidx : L.length - 1 + R.length - 1 - (L.dropLast).length =
                R.length - 1 := by
              rw [hdll]
              omega
            rw [hidx, hRlast, hdrop]
            rw [getD_drop (by omega) _]
            have hidx2 : m + (P.length - m - 1) = P.length - 1 := by omega
            rw [hidx2]
          · intro q hq
            rw [List.drop_append_of_le_length (by rw [hdll]; omega)] at hq
            rw [List.dropLast_append_of_ne_nil _
              (by intro hR0; rw [hR0] at hR2; simp at hR2)] at hq
            rcases List.mem_append.mp hq with hqa | hqb
            · rw [dropLast_drop_comm] at hqa
              have hq2 := hLint q hqa
              rcases mem_interior_exists hq2 (0, 0) with ⟨k, hk1, hk2, hkq⟩
              rw [htake] at hk2
              rw [getD_take (by omega) (by omega) _] at hkq
              rw [hkq]
              exact interior_getD_mem (by omega) hk1 (by omega) _
            · rcases List.mem_iff_getElem.mp hqb with ⟨i, hi, hq3⟩
              have hi2 : i < R.length - 1 := by
                simpa using hi
              by_cases hi0 : i = 0
              · subst hi0
                have hq4 : q = R.getD 0 (0, 0) := by
                  rw [getD_eq_getElem (by omega) _, ← hq3]
                  rw [List.getElem_dropLast]
                have hq5 : q = P.getD m (0, 0) := by
                  rw [hq4, hRhead, getD_drop (by omega) _]
                  have : m + 0 = m := by omega
                  rw [this]
                rw [hq5]
                exact interior_getD_mem (by omega) (by omega) (by omega) _
              · have hq4 : q ∈ (R.drop 1).dropLast := by
                  rw [← hq3, List.getElem_dropLast]
                  have hRlen : 2 < R.length := by omega
                  have := interior_getD_mem hRlen (by omega : 1 ≤ i)
                    (by omega : i ≤ R.length - 2) ((0, 0) : ℚ × ℚ)
                  rw [getD_eq_getElem (by omega) _] at this
                  exact this
                have hq5 := hRint q hq4
                rcases mem_interior_exists hq5 (0, 0) with ⟨k, hk1, hk2, hkq⟩
                rw [hdrop] at hk2
                rw [getD_drop (by omega) _] at hkq
                rw [hkq]
                exact interior_getD_mem (by omega) (by omega) (by omega) _
        · rw [if_neg hgt]
          refine ⟨by simp, rfl, by simp, ?_⟩
          intro q hq
          simp at hq

/-- Claim C5: Douglas-Peucker simplification is idempotent — for every finite
point list, every positive tolerance, and every distance metric (in
particular the perpendicular-distance metric the source passes),
`douglasPeucker (douglasPeucker P t) t = douglasPeucker P t`. -/
theorem douglasPeucker_idempotent (d : ℚ × ℚ → ℚ × ℚ → ℚ × ℚ → ℚ)
    (points : List (ℚ × ℚ)) (t : ℚ) (ht : 0 < t) :
    douglasPeucker d (douglasPeucker d points t) t = douglasPeucker d points t := by
  suffices h : ∀ (n : Nat) (P : List (ℚ × ℚ)), P.length = n →
      douglasPeucker d (douglasPeucker d P t) t = douglasPeucker d P t from
    h points.length points rfl
  intro n
  induction n using Nat.strong_induction_on with
  | _ n ih =>
      intro P hP
      by_cases hsmall : P.length ≤ 2
      · have h1 : douglasPeucker d P t = P := by rw [dp_eq d ht P, if_pos hsmall]
        rw [h1, h1]
      · rw [dp_eq d ht P, if_neg hsmall]
        set f := fun i => d (P.getD i (0, 0)) (P.getD 0 (0, 0))
          (P.getD (P.length - 1) (0, 0)) with hf
        by_cases hgt : (findMax f P.length).1 > t
        · rw [if_pos hgt]
          obtain ⟨hm1, hm2⟩ := findMax_pos_bounds f P.length ht hgt
          set m := (findMax f P.length).2 with hm
          have htake : (P.take (m + 1)).length = m + 1 := by
            rw [List.length_take]
            omega
          have hdrop : (P.drop m).length = P.length - m := List.length_drop _ _
          obtain ⟨hL2, hLhead, hLlast, hLint⟩ :=
            dp_main d ht (m + 1) (P.take (m + 1)) htake (by omega)
          obtain ⟨hR2, hRhead, hRlast, hRint⟩ :=
            dp_main d ht (P.length - m) (P.drop m) hdrop (by omega)
          have hidemL := ih (m + 1) (by omega) (P.take (m + 1)) htake
          have hidemR := ih (P.length - m) (by omega) (P.drop m) hdrop
          set L := douglasPeucker d (P.take (m + 1)) t with hLdef
          set R := douglasPeucker d (P.drop m) t with hRdef
          have hdll : (L.dropLast).length = L.length - 1 := List.length_dropLast _
          have hQlen : (L.dropLast ++ R).length = L.length - 1 + R.length := by
            rw [List.length_append, hdll]
          have hMpos : (0 : ℚ) < (findMax f P.length).1 := lt_trans ht hgt
          rcases findMax_spec f P.length with ⟨hr0, _⟩ | ⟨_, _, _, hMeq, hfirstP, hallP⟩
          · rw [hr0] at hMpos
            simp at hMpos
          have hQ0 : (L.dropLast ++ R).getD 0 (0, 0) = P.getD 0 (0, 0) := by
            rw [getD_append_left (by omega) _, getD_dropLast (by omega) _, hLhead,
              getD_take (by omega) (by omega) _]
          have hQlast : (L.dropLast ++ R).getD ((L.dropLast ++ R).length - 1) (0, 0) =
              P.getD (P.length - 1) (0, 0) := by
            rw [hQlen, getD_append_right (by omega) _]
            have hidx : L.length - 1 + R.length - 1 - (L.dropLast).length =
                R.length - 1 := by omega
            rw [hidx, hRlast, hdrop, getD_drop (by omega) _]
            have hidx2 : m + (P.length - m - 1) = P.length - 1 := by omega
            rw [hidx2]
          have hQmid : (L.dropLast ++ R).getD (L.length - 1) (0, 0) =
              P.getD m (0, 0) := by
            rw [getD_append_right (by omega) _]
            have hidx : L.length - 1 - (L.dropLast).length = 0 := by omega
            rw [hidx, hRhead, getD_drop (by omega) _]
            norm_num
          have hexact : findMax (fun i => d ((L.dropLast ++ R).getD i (0, 0))
              ((L.dropLast ++ R).getD 0 (0, 0))
              ((L.dropLast ++ R).getD ((L.dropLast ++ R).length - 1) (0, 0)))
              (L.dropLast ++ R).length = ((findMax f P.length).1, L.length - 1) := by
            apply findMax_exact
            · exact hMpos
            · omega
            · rw [hQlen]
              omega
            · show d ((L.dropLast ++ R).getD (L.length - 1) (0, 0))
                ((L.dropLast ++ R).getD 0 (0, 0))
                ((L.dropLast ++ R).getD ((L.dropLast ++ R).length - 1) (0, 0)) =
                (findMax f P.length).1
              rw [hQmid, hQ0, hQlast, hMeq]
            · intro i hi1 hi2
              show d ((L.dropLast ++ R).getD i (0, 0))
                ((L.dropLast ++ R).getD 0 (0, 0))
                ((L.dropLast ++ R).getD ((L.dropLast ++ R).length - 1) (0, 0)) <
                (findMax f P.length).1
              rw [hQ0, hQlast]
              have hQi : (L.dropLast ++ R).getD i (0, 0) = L.getD i (0, 0) := by
                rw [getD_append_left (by omega) _, getD_dropLast (by omega) _]
              rw [hQi]
              have hmemL : L.getD i (0, 0) ∈ (L.drop 1).dropLast :=
                interior_getD_mem (by omega) hi1 (by omega) _
              rcases mem_interior_exists (hLint _ hmemL) ((0, 0) : ℚ × ℚ)
                with ⟨k, hk1, hk2, hkq⟩
              rw [htake] at hk2
              rw [getD_take (by omega) (by omega) _] at hkq
              rw [hkq]
              exact hfirstP k hk1 (by omega)
            · intro i hi1 hi2
              rw [hQlen] at hi2
              show d ((L.dropLast ++ R).getD i (0, 0))
                ((L.dropLast ++ R).getD 0 (0, 0))
                ((L.dropLast ++ R).getD ((L.dropLast ++ R).length - 1) (0, 0)) ≤
                (findMax f P.length).1
              rw [hQ0, hQlast]
              rcases Nat.lt_trichotomy i (L.length - 1) with hlt | hieq | hgt2
              · have hQi : (L.dropLast ++ R).getD i (0, 0) = L.getD i (0, 0) := by
                  rw [getD_append_left (by omega) _, getD_dropLast (by omega) _]
                rw [hQi]
                have hmemL : L.getD i (0, 0) ∈ (L.drop 1).dropLast :=
                  interior_getD_mem (by omega) hi1 (by omega) _
                rcases mem_interior_exists (hLint _ hmemL) ((0, 0) : ℚ × ℚ)
                  with ⟨k, hk1, hk2, hkq⟩
                rw [htake] at hk2
                rw [getD_take (by omega) (by omega) _] at hkq
                rw [hkq]
                exact le_of_lt (hfirstP k hk1 (by omega))
              · subst hieq
                rw [hQmid, hMeq]
              · have hj1 : 1 ≤ i - (L.length - 1) := by omega
                have hj2 : i - (L.length - 1) ≤ R.length - 2 := by omega
                have hQi : (L.dropLast ++ R).getD i (0, 0) =
                    R.getD (i - (L.length - 1)) (0, 0) := by
                  rw [getD_append_right (by omega) _, hdll]
                rw [hQi]
                have hmemR : R.getD (i - (L.length - 1)) (0, 0) ∈ (R.drop 1).dropLast :=
                  interior_getD_mem (by omega) hj1 hj2 _
                rcases mem_interior_exists (hRint _ hmemR) ((0, 0) : ℚ × ℚ)
                  with ⟨k, hk1, hk2, hkq⟩
                rw [hdrop] at hk2
                rw [getD_drop (by omega) _] at hkq
                rw [hkq]
                exact hallP (m + k) (by omega) (by omega)
          rw [dp_eq d ht (L.dropLast ++ R), if_neg (by rw [hQlen]; omega), hexact]
          rw [if_pos (by simpa using hgt)]
          simp only
          have hne : L ≠ [] := by
            intro h0
            rw [h0] at hL2
            simp at hL2
          have htakeQ : (L.dropLast ++ R).take (L.length - 1 + 1) = L := by
            rw [List.take_append_eq_append_take,
              List.take_of_length_le (by omega)]
            have hidx : L.length - 1 + 1 - (L.dropLast).length = 1 := by omega
            rw [hidx]
            have hR1 : R.take 1 = [R.getD 0 (0, 0)] := by
              rcases R with _ | ⟨r0, rr⟩
              · simp at hR2
              · simp
            rw [hR1]
            have hRL : R.getD 0 (0, 0) = L.getD (L.length - 1) (0, 0) := by
              rw [hRhead, getD_drop (by omega) _, hLlast, htake,
                getD_take (by omega) (by omega) _]
              have hx : m + 0 = m + 1 - 1 := by omega
              rw [hx]
            rw [hRL]
            have hx : L.getD (L.length - 1) (0, 0) = L.getLast hne := by
              rw [List.getLast_eq_getElem, getD_eq_getElem (by omega) _]
            rw [hx, List.dropLast_append_getLast hne]
          have hdropQ : (L.dropLast ++ R).drop (L.length - 1) = R := by
            rw [← hdll, List.drop_left]
          rw [htakeQ, hdropQ, hidemL, hidemR]
        · rw [if_neg hgt]
          rw [dp_eq d ht [P.getD 0 (0, 0), P.getD (P.length - 1) (0, 0)],
            if_pos (by simp)]

/-- Claim C5 witness: idempotence at a concrete sawtooth input with a concrete
metric and tolerance one half. -/
theorem douglasPeucker_idempotent_witness :
    douglasPeucker (fun p _ _ => p.1)
      (douglasPeucker (fun p _ _ => p.1)
        [(0, 0), (1, 5), (2, 0), (3, 5), (4, 0)] (1 / 2)) (1 / 2) =
    douglasPeucker (fun p _ _ => p.1)
      [(0, 0), (1, 5), (2, 0), (3, 5), (4, 0)] (1 / 2) :=
  douglasPeucker_idempotent _ _ _ (by norm_num)

/-- Claim C9: `douglasPeucker` terminates on every finite input for every
positive tolerance — lists of length at most 2 return immediately; the result
is stable under every recursion-depth fuel of at least the list length (so
the fuel-free JS recursion is total there); and whenever the recursive branch
is taken the maximum distance exceeds the positive tolerance, making the
split index strictly interior, so both recursive calls receive strictly
shorter lists. -/
theorem douglasPeucker_terminates (d : ℚ × ℚ → ℚ × ℚ → ℚ × ℚ → ℚ)
    (points : List (ℚ × ℚ)) (t : ℚ) :
    (points.length ≤ 2 → douglasPeucker d points t = points) ∧
    (0 < t → ∀ fuel, points.length ≤ fuel →
      dpFuel d fuel points t = douglasPeucker d points t) ∧
    (0 < t → 2 < points.length →
      t < (findMax (fun i => d (points.getD i (0, 0)) (points.getD 0 (0, 0))
        (points.getD (points.length - 1) (0, 0))) points.length).1 →
      1 ≤ (findMax (fun i => d (points.getD i (0, 0)) (points.getD 0 (0, 0))
        (points.getD (points.length - 1) (0, 0))) points.length).2 ∧
      (findMax (fun i => d (points.getD i (0, 0)) (points.getD 0 (0, 0))
        (points.getD (points.length - 1) (0, 0))) points.length).2 ≤
        points.length - 2 ∧
      (points.take ((findMax (fun i => d (points.getD i (0, 0)) (points.getD 0 (0, 0))
        (points.getD (points.length - 1) (0, 0))) points.length).2 + 1)).length <
        points.length ∧
      (points.drop ((findMax (fun i => d (points.getD i (0, 0)) (points.getD 0 (0, 0))
        (points.getD (points.length - 1) (0, 0))) points.length).2)).length <
        points.length) := by
  refine ⟨?_, ?_, ?_⟩
  · intro h
    exact dpFuel_small d t h _
  · intro ht fuel hf
    exact dpFuel_irrel d ht points.length points rfl fuel hf
  · intro ht hbig hgt
    obtain ⟨h1, h2⟩ := findMax_pos_bounds (fun i => d (points.getD i (0, 0))
      (points.getD 0 (0, 0)) (points.getD (points.length - 1) (0, 0)))
      points.length ht hgt
    refine ⟨h1, h2, ?_, ?_⟩
    · rw [List.length_take]
      omega
    · rw [List.length_drop]
      omega

/-- Claim C9 witness: fuel 5 computes the same value as fuel 3 on a 3-point
list with a concrete metric. -/
theorem douglasPeucker_terminates_witness :
    dpFuel (fun _ _ _ => (0 : ℚ)) 5 [(0, 0), (1, 1), (2, 2)] 1 =
      douglasPeucker (fun _ _ _ => (0 : ℚ)) [(0, 0), (1, 1), (2, 2)] 1 :=
  (douglasPeucker_terminates (fun _ _ _ => (0 : ℚ))
    [(0, 0), (1, 1), (2, 2)] 1).2.1 (by norm_num) 5 (by decide)
